import Mathlib

/-!
Verification development for the execution engine and node-selection planner
of a GraphQL federation gateway.

The executor (pkg/execution/execution.go) is embedded as pure functions over
an explicit executor state.  Go byte slices holding JSON are modelled by the
inductive type Jd: a `raw` node holds exactly the bytes that jsonparser.Get
would hand over for a scalar, while `obj` and `arr` keep structure so that
path navigation (jsonparser.Get / jsonparser.ArrayEach) can be expressed.
The output writer is modelled as a list of successful writes plus an optional
attempt index at which the sink fails.  xxhash keys are modelled by the hashed
strings themselves (the embedding assumes no hash collisions).  A DataSource
is an external collaborator; its Resolve is modelled as depositing a fixed
content value into the fetch buffer and returning a fixed Instruction.
-/

namespace Exec

/-- Instruction is the closed set of stream-control values returned by fetches. -/
inductive Instruction where
  | keepStreamAlive
  | closeConnection
  | closeConnectionIfNotStream
deriving DecidableEq, Repr

/-- Errors observable on the executor: jsonparser.KeyPathNotFoundError, any other
jsonparser failure, and a failure of the output sink. -/
inductive GoErr where
  | keyPathNotFound
  | malformedJson
  | writeFailed
deriving DecidableEq, Repr

mutual
/-- JSON data as the executor sees it.  `raw` holds scalar bytes verbatim. -/
inductive Jd where
  | raw (s : String)
  | obj (fields : JdFields)
  | arr (items : JdItems)
deriving Repr
/-- Fields of a JSON object, in document order. -/
inductive JdFields where
  | nil
  | cons (key : String) (value : Jd) (rest : JdFields)
deriving Repr
/-- Items of a JSON array, in document order. -/
inductive JdItems where
  | nil
  | cons (value : Jd) (rest : JdItems)
deriving Repr
end

mutual
/-- Byte rendering of a JSON value, used for length and equality checks on data. -/
def Jd.render : Jd → String
  | .raw s => s
  | .obj fields => "\x7b" ++ fields.render ++ "\x7d"
  | .arr items => "[" ++ items.render ++ "]"
/-- Byte rendering of object fields. -/
def JdFields.render : JdFields → String
  | .nil => ""
  | .cons k v .nil => "\"" ++ k ++ "\":" ++ v.render
  | .cons k v (.cons k2 v2 rest) =>
      "\"" ++ k ++ "\":" ++ v.render ++ "," ++ (JdFields.cons k2 v2 rest).render
/-- Byte rendering of array items. -/
def JdItems.render : JdItems → String
  | .nil => ""
  | .cons v .nil => v.render
  | .cons v (.cons v2 rest) => v.render ++ "," ++ (JdItems.cons v2 rest).render
end

/-- Lookup of an object key, first match wins. -/
def JdFields.lookup : JdFields → String → Option Jd
  | .nil, _ => none
  | .cons k v rest, key => if k = key then some v else rest.lookup key

/-- List view of array items. -/
def JdItems.toList : JdItems → List Jd
  | .nil => []
  | .cons v rest => v :: rest.toList

/-- Model of jsonparser.Get on already-parsed data: navigate nested object keys.
A missing key, or a non-object met before the path ends, reports
KeyPathNotFoundError exactly as the Go library does for a failed key search. -/
def Jd.get : Jd → List String → Except GoErr Jd
  | d, [] => .ok d
  | .obj fields, k :: ks =>
    match fields.lookup k with
    | some v => v.get ks
    | none => .error .keyPathNotFound
  | .arr _, _ :: _ => .error .keyPathNotFound
  | .raw _, _ :: _ => .error .keyPathNotFound

/-- Data flowing through resolveNode: `none` is the Go nil byte slice. -/
abbrev Jdata := Option Jd

/-- Bytes of the data, empty for the nil slice. -/
def dataBytes : Jdata → String
  | none => ""
  | some d => d.render

/-- Model of jsonparser.Get on a data argument; the Go call on a nil slice fails
its key search, reported as KeyPathNotFoundError. -/
def jdGet (data : Jdata) (path : List String) : Except GoErr Jd :=
  match data with
  | none => .error .keyPathNotFound
  | some d => d.get path

/-- Model of jsonparser.ArrayEach: navigate to the node path, then collect the
array items in order; a value that is not an array is a malformed-array error. -/
def arrayEach (data : Jdata) (path : List String) : List Jd × Option GoErr :=
  match jdGet data path with
  | .error e => ([], some e)
  | .ok (.arr items) => (items.toList, none)
  | .ok _ => ([], some .malformedJson)

/-- Buffer map of the executor: fetch-path hash (modelled by the path string
itself) to the buffer content deposited by the owning fetch. -/
abbrev BufMap := String → Option Jd

/-- The empty buffer map of NewExecutor. -/
def bufEmpty : BufMap := fun _ => none

/-- Store a buffer: creation or reset-and-rewrite both end with the new content. -/
def bufInsert (b : BufMap) (key : String) (content : Jd) : BufMap :=
  fun x => if x = key then some content else b x

/-- Executor state: the successful writes in order, the sink's failing attempt
index (none = the sink never fails), the count of write attempts reaching the
sink, the executor error, the collected instructions and the buffer map. -/
structure ExecState where
  out : List String
  failAt : Option Nat
  writeCount : Nat
  err : Option GoErr
  instructions : List Instruction
  buffers : BufMap

/-- Executor.write: elided once err is non-nil, otherwise attempt the sink. -/
def ExecState.write (s : ExecState) (data : String) : ExecState :=
  if s.err.isSome then s
  else if s.failAt = some s.writeCount then
    { s with err := some .writeFailed, writeCount := s.writeCount + 1 }
  else
    { s with out := s.out ++ [data], writeCount := s.writeCount + 1 }

mutual
/-- Fetch variants: Single carries its buffer name together with the content its
data source resolves into the buffer and the Instruction it returns. -/
inductive Fetch where
  | single (bufferName : String) (content : Jd) (instr : Instruction)
  | serial (fetches : FetchList)
  | parallel (fetches : FetchList)
deriving Repr
/-- List of fetches of a Serial or Parallel fetch. -/
inductive FetchList where
  | nil
  | cons (head : Fetch) (tail : FetchList)
deriving Repr
end

mutual
/-- Fetch.Fetch: a single fetch deposits its content under path.bufferName and
returns its data source's Instruction; Serial and Parallel run their inner
fetches (the model runs a parallel group in spawn order; reordering is studied
separately), discard the inner Instructions and return CloseConnection. -/
def runFetch : Fetch → String → BufMap → BufMap × Instruction
  | .single bufferName content instr, path, buffers =>
    (bufInsert buffers (path ++ "." ++ bufferName) content, instr)
  | .serial fetches, path, buffers => (runFetchList fetches path buffers, .closeConnection)
  | .parallel fetches, path, buffers => (runFetchList fetches path buffers, .closeConnection)
/-- Run the fetches of a group in order, keeping only the buffer effects. -/
def runFetchList : FetchList → String → BufMap → BufMap
  | .nil, _, buffers => buffers
  | .cons f rest, path, buffers => runFetchList rest path (runFetch f path buffers).1
end

mutual
/-- Argument variants passed to data sources and conditions. -/
inductive Argument where
  | static (name value : String)
  | objectVariable (name : String) (path : List String)
  | contextVariable (name variableName : String)
  | listArg (name : String) (args : ArgumentList)
deriving Repr
/-- List of arguments (of a ListArgument or of a fetch invocation). -/
inductive ArgumentList where
  | nil
  | cons (head : Argument) (tail : ArgumentList)
deriving Repr
end

/-- Execution context: variables keyed by the hash of the variable name
(modelled by the name itself) and extra arguments appended by the caller. -/
structure Context where
  vars : String → Option String
  extraArguments : ArgumentList

/-- Boolean conditions attached to fields (IfEqual / IfNotEqual). -/
inductive SkipCond where
  | ifEqual (left right : Argument)
  | ifNotEqual (left right : Argument)
deriving Repr

/-- Value of one side of an IfEqual condition: context variables are looked up
in the variable map, object variables navigate the data, static arguments are
literal; a ListArgument is not handled by the Go switch and stays nil. -/
def argSideValue (ctx : Context) (data : Jdata) : Argument → String
  | .contextVariable _ variableName => (ctx.vars variableName).getD ""
  | .objectVariable _ path =>
    match jdGet data path with
    | .ok v => v.render
    | .error _ => ""
  | .static _ value => value
  | .listArg _ _ => ""

/-- Evaluate a skip condition; IfNotEqual is the negation of IfEqual. -/
def SkipCond.evaluate (ctx : Context) (data : Jdata) : SkipCond → Bool
  | .ifEqual left right => argSideValue ctx data left == argSideValue ctx data right
  | .ifNotEqual left right => !(argSideValue ctx data left == argSideValue ctx data right)

mutual
/-- Plan tree nodes: Object, List and Value; Field nodes live in an Object's
field list and are dispatched by resolveFld. -/
inductive Node where
  | object (fields : FieldList) (path : List String) (fetch : Option Fetch)
  | list (path : List String) (filter : Option Nat) (value : Node)
  | value (path : List String) (quoteValue : Bool)
deriving Repr
/-- Fields of an Object node, in declaration order. -/
inductive FieldList where
  | nil
  | cons (head : Fld) (tail : FieldList)
deriving Repr
/-- A Field node: name, optional skip condition, HasResolver flag and value. -/
inductive Fld where
  | mk (name : String) (skip : Option SkipCond) (hasResolver : Bool) (value : Node)
deriving Repr
end

mutual
/-- Node.HasResolvers: an Object has resolvers when some field does. -/
def Node.hasResolvers : Node → Bool
  | .object fields _ _ => FieldList.hasResolvers fields
  | .list _ _ v => v.hasResolvers
  | .value _ _ => false
/-- HasResolvers over a field list. -/
def FieldList.hasResolvers : FieldList → Bool
  | .nil => false
  | .cons f rest => Fld.hasResolvers f || FieldList.hasResolvers rest
/-- Field.HasResolvers: its own flag or its value's. -/
def Fld.hasResolvers : Fld → Bool
  | .mk _ _ hasResolver value => hasResolver || value.hasResolvers
end

/-- Skip decision of the Object rendering loop for one field. -/
def fldSkipped (ctx : Context) (f : Fld) (data : Jdata) : Bool :=
  match f with
  | .mk _ (some cond) _ _ => cond.evaluate ctx data
  | .mk _ none _ _ => false

/-- Path navigation at the head of the Object case: on data with a non-nil
path, jsonparser.Get replaces both the data and the executor error; a
KeyPathNotFoundError clears the error, writes null, and returns (first
component false). -/
def objectNavigate (data : Jdata) (opath : List String) (s : ExecState) :
    Bool × Jdata × ExecState :=
  if data.isSome && !opath.isEmpty then
    match jdGet data opath with
    | .error .keyPathNotFound => (false, data, ({ s with err := none }).write "null")
    | .error e => (true, none, { s with err := some e })
    | .ok d2 => (true, some d2, { s with err := none })
  else (true, data, s)

/-- Quote-aware write of the Value case. -/
def quoteWrite (s : ExecState) (quote : Bool) (data : String) : ExecState :=
  let s1 := if quote then s.write "\"" else s
  let s2 := s1.write data
  if quote then s2.write "\"" else s2

/-- Fetch invocation of the Object case: the returned Instruction is appended
and the buffer map replaced by the fetch's effects. -/
def fetchStep (fetch : Option Fetch) (shouldFetch : Bool) (path : String)
    (s1 : ExecState) : ExecState :=
  if shouldFetch then
    match fetch with
    | some f =>
      let r := runFetch f path s1.buffers
      { s1 with buffers := r.1, instructions := s1.instructions ++ [r.2] }
    | none => s1
  else s1

/-- Closing of the List case: when no item was rendered or the array path was
missing, the error is cleared and the opening bracket written late; the
closing bracket always follows. -/
def listTail (maxItems : Nat) (s3 : ExecState) : ExecState :=
  let s4 := if maxItems = 0 || s3.err = some .keyPathNotFound then
      ({ s3 with err := none }).write "["
    else s3
  s4.write "]"

/-- The prefetch test of the List case: the child is an Object with a Fetch. -/
def shouldPrefetchOf : Node → Bool
  | .object _ _ (some _) => true
  | _ => false

/-- Indexed loop over list items, used for the prefetch and render loops. -/
def renderLoop (f : Nat → Jd → ExecState → ExecState) :
    List Jd → Nat → ExecState → ExecState
  | [], _, s => s
  | item :: rest, i, s => renderLoop f rest (i + 1) (f i item s)

mutual
/-- Executor.resolveNode translated case by case from the Go source; the
prefetch Bool models a non-nil WaitGroup argument. -/
def resolveNode (ctx : Context) : Node → Jdata → String → Bool → Bool → ExecState → ExecState
  | .object fields opath fetch, data, path, prefetch, shouldFetch, s =>
    match objectNavigate data opath s with
    | (false, _, s1) => s1
    | (true, data1, s1) =>
      let s2 := fetchStep fetch shouldFetch path s1
      if prefetch then s2
      else if dataBytes data1 = "null" then s2.write "null"
      else (resolveFields ctx fields 0 data1 path (s2.write "\x7b")).write "\x7d"
  | .list lpath filt v, data, path, _, _, s =>
    if dataBytes data = "" then s.write "null"
    else
      let shouldPrefetch := shouldPrefetchOf v
      let ae := arrayEach data lpath
      let s1 := { s with err := ae.2 }
      let path1 := path ++ "."
      let maxItems :=
        match filt with
        | some firstN => min ae.1.length firstN
        | none => ae.1.length
      let items := ae.1.take maxItems
      let s2 := if shouldPrefetch then
          renderLoop (fun i item st =>
            resolveNode ctx v (some item) (path1 ++ toString i) true true st) items 0 s1
        else s1
      let s3 := renderLoop (fun i item st =>
          resolveNode ctx v (some item) (path1 ++ toString i) false false
            (st.write (if i = 0 then "[" else ","))) items 0 s2
      listTail maxItems s3
  | .value vpath quote, data, _, _, _, s =>
    if dataBytes data = "null" then s.write "null"
    else if vpath.isEmpty then quoteWrite s quote (dataBytes data)
    else
      match jdGet data vpath with
      | .error .keyPathNotFound => ({ s with err := none }).write "null"
      | .error e => quoteWrite { s with err := some e } quote (dataBytes none)
      | .ok d2 => quoteWrite { s with err := none } quote (dataBytes (some d2))
/-- Field rendering: buffer substitution for resolver fields, the quoted name
and colon, the empty-data null shortcut, then the descent into the value. -/
def resolveFld (ctx : Context) : Fld → Jdata → String → ExecState → ExecState
  | .mk name _ hasResolver value, data, path, s =>
    let path1 := path ++ "." ++ name
    if hasResolver then
      match s.buffers path1 with
      | none => ((((s.write "\"").write name).write "\"").write ":").write "null"
      | some content =>
        let s1 := (((s.write "\"").write name).write "\"").write ":"
        if dataBytes (some content) = "" && !value.hasResolvers then s1.write "null"
        else resolveNode ctx value (some content) path1 false true s1
    else
      let s1 := (((s.write "\"").write name).write "\"").write ":"
      if dataBytes data = "" && !value.hasResolvers then s1.write "null"
      else resolveNode ctx value data path1 false true s1
/-- Object field loop: a comma precedes every field except index zero, skipped
fields are dropped but still advance the index. -/
def resolveFields (ctx : Context) : FieldList → Nat → Jdata → String → ExecState → ExecState
  | .nil, _, _, _, s => s
  | .cons f rest, i, data, path, s =>
    if fldSkipped ctx f data then resolveFields ctx rest (i + 1) data path s
    else
      let s1 := if i ≠ 0 then s.write "," else s
      resolveFields ctx rest (i + 1) data path (resolveFld ctx f data path s1)
end

/-- Operation types of a root node. -/
inductive OperationType where
  | query
  | mutation
  | subscription
deriving DecidableEq, Repr

/-- Root path chosen by Execute from the operation type. -/
def operationPath : OperationType → String
  | .query => "query"
  | .mutation => "mutation"
  | .subscription => "subscription"

/-- Fresh executor state: Execute resets err and instructions but keeps the
executor's buffer map, which is passed in. -/
def initState (failAt : Option Nat) (buffers : BufMap) : ExecState :=
  { out := [], failAt := failAt, writeCount := 0, err := none,
    instructions := [], buffers := buffers }

/-- Executor.Execute: resolve the root with nil data under the operation path. -/
def Execute (ctx : Context) (opType : OperationType) (root : Node)
    (failAt : Option Nat) (buffers : BufMap) : ExecState :=
  resolveNode ctx root none (operationPath opType) false true (initState failAt buffers)

/-! Argument resolution (Executor.ResolveArgs). -/

/-- Does the byte string contain the two-byte sequence of two opening braces. -/
def hasDoubleLbrace : List Char → Bool
  | '\x7b' :: '\x7b' :: _ => true
  | _ :: rest => hasDoubleLbrace rest
  | [] => false

/-- A fasttemplate segment: literal bytes or the bytes between the delimiters. -/
inductive Segment where
  | lit (s : String)
  | tag (s : String)
deriving DecidableEq, Repr

/-- Grow the pending tag of the scanner with one more character. -/
def consTag (c : Char) : List Segment → List Segment
  | .tag t :: segs => .tag (c.toString ++ t) :: segs
  | segs => segs

mutual
/-- Model of fasttemplate scanning outside a tag: two opening braces start a
tag; none is the NewTemplate error for an unclosed tag. -/
def scanLit : List Char → Option (List Segment)
  | [] => some []
  | '\x7b' :: '\x7b' :: rest => scanTag rest
  | c :: rest => (scanLit rest).map (fun segs => .lit c.toString :: segs)
/-- Model of fasttemplate scanning inside a tag: the first two closing braces
end it. -/
def scanTag : List Char → Option (List Segment)
  | [] => none
  | '\x7d' :: '\x7d' :: rest => (scanLit rest).map (fun segs => .tag "" :: segs)
  | c :: rest => (scanTag rest).map (consTag c)
end

/-- ExecuteFuncString: concatenate literals and the callback results for tags. -/
def executeTemplate (segs : List Segment) (f : String → String) : String :=
  segs.foldl (fun acc seg => acc ++ match seg with | .lit c => c | .tag t => f t) ""

/-- Characters trimmed around a tag: space, tab and the line terminator. -/
def trimTagChar (c : Char) : Bool := c = ' ' || c = '\t' || c = '\n'

/-- strings.TrimFunc over the tag characters. -/
def trimTag (s : String) : String :=
  ((s.data.dropWhile trimTagChar).reverse.dropWhile trimTagChar).reverse.asString

/-- Byte-level prefix test, strings.HasPrefix. -/
def strHasPrefix (s p : String) : Bool := p.data.isPrefixOf s.data

/-- strings.TrimPrefix. -/
def trimPrefixStr (s p : String) : String :=
  if strHasPrefix s p then (s.data.drop p.data.length).asString else s

/-- strings.Split on the dot separator, empty pieces preserved. -/
def splitDotAux : List Char → List Char → List String
  | [], acc => [acc.reverse.asString]
  | '.' :: rest, acc => acc.reverse.asString :: splitDotAux rest []
  | c :: rest, acc => splitDotAux rest (c :: acc)

/-- strings.Split(s, dot). -/
def splitDots (s : String) : List String := splitDotAux s.data []

/-- First argument whose key equals the stripped tag (the one-dot branch). -/
def findByKey : List (String × String) → String → Option String
  | [], _ => none
  | (k, v) :: rest, key => if k = key then some v else findByKey rest key

/-! A compact model of jsonparser on raw bytes, used where the Go code runs
jsonparser.Get on an argument value held as bytes.  It parses the bytes into
Jd and navigates; any failure yields the empty value, as the Go call sites
ignore the error and keep the nil result. -/

/-- Skip JSON whitespace. -/
def skipWs : List Char → List Char
  | c :: rest =>
    if c = ' ' || c = '\t' || c = '\n' || c = '\r' then skipWs rest else c :: rest
  | [] => []

/-- Scan a JSON string literal body keeping escapes verbatim, as jsonparser
hands string values over with their escapes preserved and quotes stripped. -/
def parseStringLit : List Char → Option (String × List Char)
  | [] => none
  | '\\' :: c :: rest => (parseStringLit rest).map (fun p => ("\\" ++ c.toString ++ p.1, p.2))
  | '"' :: rest => some ("", rest)
  | c :: rest => (parseStringLit rest).map (fun p => (c.toString ++ p.1, p.2))

/-- Characters ending an unquoted scalar token. -/
def scalarEnd (c : Char) : Bool :=
  c = ',' || c = '\x7d' || c = ']' || c = ' ' || c = '\t' || c = '\n' || c = '\r'

/-- Scan an unquoted scalar (number, bool, null) as raw bytes. -/
def parseScalar (cs : List Char) : Option (Jd × List Char) :=
  let tok := cs.takeWhile (fun c => !scalarEnd c)
  if tok.isEmpty then none else some (.raw tok.asString, cs.drop tok.length)

mutual
/-- Parse one JSON value; the fuel is spent on every nesting step. -/
def parseValue : Nat → List Char → Option (Jd × List Char)
  | 0, _ => none
  | fuel + 1, cs =>
    match skipWs cs with
    | '\x7b' :: rest => (parseObj fuel rest).map (fun p => (.obj p.1, p.2))
    | '[' :: rest => (parseArr fuel rest).map (fun p => (.arr p.1, p.2))
    | '"' :: rest => (parseStringLit rest).map (fun p => (.raw p.1, p.2))
    | cs1 => parseScalar cs1
/-- Parse the fields of an object after its opening brace. -/
def parseObj : Nat → List Char → Option (JdFields × List Char)
  | 0, _ => none
  | fuel + 1, cs =>
    match skipWs cs with
    | '\x7d' :: rest => some (.nil, rest)
    | '"' :: rest =>
      match parseStringLit rest with
      | none => none
      | some (k, r1) =>
        match skipWs r1 with
        | ':' :: r2 =>
          match parseValue fuel r2 with
          | none => none
          | some (v, r3) =>
            match skipWs r3 with
            | ',' :: r4 => (parseObj fuel r4).map (fun p => (.cons k v p.1, p.2))
            | '\x7d' :: r4 => some (.cons k v .nil, r4)
            | _ => none
        | _ => none
    | _ => none
/-- Parse the items of an array after its opening bracket. -/
def parseArr : Nat → List Char → Option (JdItems × List Char)
  | 0, _ => none
  | fuel + 1, cs =>
    match skipWs cs with
    | ']' :: rest => some (.nil, rest)
    | cs1 =>
      match parseValue fuel cs1 with
      | none => none
      | some (v, r1) =>
        match skipWs r1 with
        | ',' :: r2 => (parseArr fuel r2).map (fun p => (.cons v p.1, p.2))
        | ']' :: r2 => some (.cons v .nil, r2)
        | _ => none
end

/-- Parse raw bytes into a JSON value; the character count bounds the nesting. -/
def parseJsonBytes (s : String) : Option Jd :=
  (parseValue (s.data.length + 1) s.data).map (fun p => p.1)

/-- jsonparser.Get applied to raw bytes with the error discarded: parse,
navigate, render, and yield the empty value on any failure. -/
def jsonGetBytes (s : String) (path : List String) : String :=
  match parseJsonBytes s with
  | none => ""
  | some d =>
    match d.get path with
    | .ok v => v.render
    | .error _ => ""

/-- The key as the prefix loop compares it: dot-prefixed when the tag is
dotted and the key is not. -/
def dotKey (tag k : String) : String :=
  if strHasPrefix tag "." && !(strHasPrefix k ".") then "." ++ k else k

/-- The prefix-matching loop of the template callback: the first argument
whose key (dot-prefixed when the tag is) is a prefix of the tag wins; an
empty remainder substitutes the value, otherwise the remainder is split on
dots and JSON-navigated into the value. -/
def prefixLoop (tag : String) : List (String × String) → Option String
  | [] => none
  | (k, v) :: rest =>
    let key := dotKey tag k
    if !(strHasPrefix tag key) then prefixLoop tag rest
    else
      let rem := trimPrefixStr tag key
      if rem = "" then some v
      else
        let rem1 := trimPrefixStr rem "."
        some (jsonGetBytes v (splitDots rem1))

/-- The template callback of ResolveArgs: trim the tag; when it holds exactly
one dot, strip the dot and try an exact sibling-key match; then run the
prefix-matching loop; an unmatched tag is re-emitted between fresh delimiters
around the possibly dot-stripped tag. -/
def resolveTag (resolved : List (String × String)) (tag0 : String) : String :=
  let t0 := trimTag tag0
  let oneDot := t0.data.count '.' = 1
  let exactHit := if oneDot then findByKey resolved (trimPrefixStr t0 ".") else none
  match exactHit with
  | some v => v
  | none =>
    let t := if oneDot then trimPrefixStr t0 "." else t0
    match prefixLoop t resolved with
    | some v => v
    | none => "\x7b\x7b " ++ t ++ " \x7d\x7d"

/-- Template expansion of one materialised value: values without the double
opening brace, and values fasttemplate cannot parse, stay unchanged. -/
def resolveTemplateValue (resolved : List (String × String)) (value : String) : String :=
  if !hasDoubleLbrace value.data then value
  else
    match scanLit value.data with
    | none => value
    | some segs => executeTemplate segs (resolveTag resolved)

/-- The in-place template loop: slot i is rewritten using the list in which
slots before i already hold their expanded values. -/
def templLoop : Nat → Nat → List (String × String) → List (String × String)
  | _, 0, resolved => resolved
  | i, fuel + 1, resolved =>
    if h : i < resolved.length then
      let kv := resolved.get ⟨i, h⟩
      templLoop (i + 1) fuel (resolved.set i (kv.1, resolveTemplateValue resolved kv.2))
    else resolved

/-- ResolvedArgs.Filter dropping the internal arguments whose key starts with
a dot. -/
def filterInternal (resolved : List (String × String)) : List (String × String) :=
  resolved.filter (fun kv => !(strHasPrefix kv.1 "."))

/-- Concatenation of argument lists (the append of ExtraArguments). -/
def argListAppend : ArgumentList → ArgumentList → ArgumentList
  | .nil, l => l
  | .cons a rest, l => .cons a (argListAppend rest l)

/-- Plain list view of an argument list. -/
def argListToList : ArgumentList → List Argument
  | .nil => []
  | .cons a rest => a :: argListToList rest

/-- Escaping of the json.Marshal model for quote and backslash. -/
def jsonEscape (s : String) : String :=
  s.data.foldl (fun acc c =>
    if c = '"' then acc ++ "\\\"" else if c = '\\' then acc ++ "\\\\" else acc ++ c.toString) ""

/-- Last-wins lookup matching Go map insertion order. -/
def mapLookupLast (l : List (String × String)) (k : String) : Option String :=
  (l.reverse.find? (fun kv => kv.1 = k)).map (fun kv => kv.2)

/-- Byte-order comparison of keys as json.Marshal sorts them. -/
def charListLe : List Char → List Char → Bool
  | [], _ => true
  | _ :: _, [] => false
  | a :: arest, b :: brest =>
    if a.toNat < b.toNat then true
    else if b.toNat < a.toNat then false
    else charListLe arest brest

/-- Insert into a sorted list of keys. -/
def insertSorted (x : String) : List String → List String
  | [] => [x]
  | y :: rest => if charListLe x.data y.data then x :: y :: rest else y :: insertSorted x rest

/-- Sort the marshalled keys as json.Marshal does. -/
def sortStrings : List String → List String
  | [] => []
  | x :: rest => insertSorted x (sortStrings rest)

/-- Model of json.Marshal of a map of strings: keys deduplicated last-wins and
emitted in sorted order. -/
def marshalMap (l : List (String × String)) : String :=
  let keys := sortStrings (l.map Prod.fst).dedup
  "\x7b" ++ String.intercalate "," (keys.map (fun k =>
    "\"" ++ jsonEscape k ++ "\":\"" ++ jsonEscape ((mapLookupLast l k).getD "") ++ "\"")) ++ "\x7d"

mutual
/-- Depth of ListArgument nesting, used to pre-pay the recursion of
ResolveArgs into list arguments. -/
def argDepth : Argument → Nat
  | .static _ _ => 1
  | .objectVariable _ _ => 1
  | .contextVariable _ _ => 1
  | .listArg _ args => 1 + argDepthList args
/-- Depth over a list of arguments. -/
def argDepthList : ArgumentList → Nat
  | .nil => 0
  | .cons a rest => max (argDepth a) (argDepthList rest)
end

/-- ResolveArgs with explicit recursion budget: append ExtraArguments,
materialise each argument (list arguments recurse through ResolveArgs and
marshal the result), expand templates left to right in place, and filter the
internal dot-prefixed arguments.  The budget only bounds the ListArgument
recursion, in which the Go code re-appends ExtraArguments at every level. -/
def resolveArgsFuel : Nat → Context → ArgumentList → Jdata → List (String × String)
  | 0, _, _, _ => []
  | fuel + 1, ctx, args, data =>
    let all := argListToList (argListAppend args ctx.extraArguments)
    let resolved := all.map (fun a =>
      match a with
      | .static name value => (name, value)
      | .objectVariable name path =>
        (name, match jdGet data path with | .ok v => v.render | .error _ => "")
      | .contextVariable name variableName => (name, (ctx.vars variableName).getD "")
      | .listArg name largs => (name, marshalMap (resolveArgsFuel fuel ctx largs data)))
    filterInternal (templLoop 0 resolved.length resolved)

/-- Executor.ResolveArgs. -/
def ResolveArgs (ctx : Context) (args : ArgumentList) (data : Jdata) :
    List (String × String) :=
  resolveArgsFuel (argDepthList (argListAppend args ctx.extraArguments) + 1) ctx args data

end Exec

/-!
The node-selection visitor of the planner: pending key and field requirements
per selection set, their processing on leaving a selection set, and the maps
fieldDependsOn, fieldRequirementsConfigs and fieldLandedTo.  Maps keyed by the
Sprintf composite "fieldRef.dsHash" are modelled by the pair itself, which the
dot-free decimal rendering of both components makes equivalent.  The operation
and schema documents, the walker and the response tree live outside this file
of the repository; the pieces of them the visitor consumes are modelled from
the spec where noted.
-/

namespace Plan

/-- Stable 64-bit data-source hash, modelled as a natural number. -/
abbrev DSHash := Nat

/-- Federation key or requires configuration: type, selection set, and whether
its entity resolver is disabled. -/
structure FederationFieldConfiguration where
  typeName : String
  selectionSet : String
  disableEntityResolver : Bool
deriving DecidableEq, Repr

/-- DataSource capability interface consumed by the visitor. -/
structure DataSource where
  hash : DSHash
  requiredFieldsByKey : String → List FederationFieldConfiguration
  requiredFieldsByRequires : String → String → Option FederationFieldConfiguration
  hasKeyRequirement : String → String → Bool
  hasInterfaceObject : String → Bool
  hasEntityInterface : String → Bool
  federationKeys : List FederationFieldConfiguration

/-- keyRequirements of one pending subgraph jump. -/
structure keyRequirements where
  dsHash : DSHash
  path : String
  isInterfaceObject : Bool
  possibleKeys : List FederationFieldConfiguration
  requestedByFieldRefs : List Int
deriving DecidableEq, Repr

/-- Pending key requirements of one selection set, with the dedup tracker and
the parent data-source hashes captured at creation. -/
structure pendingKeyRequirements where
  existsTracker : List DSHash
  parentDSHashes : List DSHash
  requirementConfigs : List keyRequirements
deriving DecidableEq, Repr

/-- fieldRequirements of one pending requires injection. -/
structure fieldRequirements where
  dsHash : DSHash
  path : String
  selectionSet : String
  requestedByFieldRefs : List Int
deriving DecidableEq, Repr

/-- Pending field requirements of one selection set with the dedup tracker on
the (dsHash, selectionSet) composite key. -/
structure pendingFieldRequirements where
  existsTracker : List (DSHash × String)
  requirementConfigs : List fieldRequirements
deriving DecidableEq, Repr

/-- Fragment of key fields injected into the operation.  Modelled from the
spec: RequiredFieldsFragment(typeName, selectionSet, includeTypename) parses
the selection-set string into an AST fragment, and the flag decides whether a
__typename selection is added to it; the fragment is abstracted to these three
inputs, with parse failures tracked by the planner oracle. -/
structure KeyFragment where
  typeName : String
  selectionSet : String
  hasTypename : Bool
deriving DecidableEq, Repr

/-- RequiredFieldsFragment builds the fragment that addRequiredFields injects. -/
def RequiredFieldsFragment (typeName selectionSet : String) (includeTypename : Bool) :
    KeyFragment :=
  { typeName := typeName, selectionSet := selectionSet, hasTypename := includeTypename }

/-- Modelled from the spec: RequiredFieldsFragment may fail to parse the
selection-set string, and addRequiredFields injects the fragment into the
operation returning (skipFieldRefs, requiredFieldRefs) or failing; both live
outside this file of the repository, so they are oracles the theorems
quantify over. -/
structure PlannerOracle where
  fragmentParseOk : String → String → Bool → Bool
  addRequiredFields : KeyFragment → Int → Option (List Int × List Int)

/-- State of the nodeSelectionVisitor that the modelled operations touch; the
walker error report is modelled from the spec as the first fatal message. -/
structure Visitor where
  dataSources : List DataSource
  selectionSetRefs : List Int
  skipFieldsRefs : List Int
  pendingKeyRequirements : Int → Option pendingKeyRequirements
  pendingFieldRequirements : Int → Option pendingFieldRequirements
  fieldDependsOn : Int × DSHash → List Int
  fieldRequirementsConfigs : Int × DSHash → List FederationFieldConfiguration
  fieldLandedTo : Int → Option DSHash
  visitedFieldsKeyChecks : Int × DSHash → Bool
  hasNewFields : Bool
  internalErr : Option String

/-- Modelled from the spec: walker.StopWithInternalErr stops the walk and
reports a fatal planner error; the first message is kept. -/
def Visitor.stopWithInternalErr (v : Visitor) (msg : String) : Visitor :=
  match v.internalErr with
  | some _ => v
  | none => { v with internalErr := some msg }

/-- The visitor state right after EnterDocument on the first run. -/
def initVisitor (dataSources : List DataSource) : Visitor :=
  { dataSources := dataSources, selectionSetRefs := [], skipFieldsRefs := [],
    pendingKeyRequirements := fun _ => none, pendingFieldRequirements := fun _ => none,
    fieldDependsOn := fun _ => [], fieldRequirementsConfigs := fun _ => [],
    fieldLandedTo := fun _ => none, visitedFieldsKeyChecks := fun _ => false,
    hasNewFields := false, internalErr := none }

/-- Top of the selection-set stack, ast.InvalidRef when empty. -/
def Visitor.currentSelectionSet (v : Visitor) : Int :=
  match v.selectionSetRefs.getLast? with
  | none => -1
  | some r => r

/-- Pointwise update of a function-backed map. -/
def updFn [DecidableEq α] (m : α → β) (k : α) (val : β) : α → β :=
  fun x => if x = k then val else m x

/-- Update of a list-valued map entry. -/
def updList [DecidableEq α] (m : α → List β) (k : α) (f : List β → List β) : α → List β :=
  fun x => if x = k then f (m k) else m x

/-- Merge a requesting field ref into the first pending field requirement with
the same selection set, unless already present. -/
def mergeFieldRequirement : List fieldRequirements → String → Int → List fieldRequirements
  | [], _, _ => []
  | c :: rest, sel, r =>
    if c.selectionSet = sel then
      (if c.requestedByFieldRefs.contains r then c
       else { c with requestedByFieldRefs := c.requestedByFieldRefs ++ [r] }) :: rest
    else c :: mergeFieldRequirement rest sel r

/-- Merge a requesting field ref into the first pending key requirement with
the same data-source hash, unless already present. -/
def mergeKeyRequirement : List keyRequirements → DSHash → Int → List keyRequirements
  | [], _, _ => []
  | c :: rest, dsHash, r =>
    if c.dsHash = dsHash then
      (if c.requestedByFieldRefs.contains r then c
       else { c with requestedByFieldRefs := c.requestedByFieldRefs ++ [r] }) :: rest
    else c :: mergeKeyRequirement rest dsHash r

/-- nodeSelectionVisitor.addPendingFieldRequirements. -/
def addPendingFieldRequirements (v : Visitor) (requestedByFieldRef : Int) (dsHash : DSHash)
    (fieldConfiguration : FederationFieldConfiguration) (currentPath : String) : Visitor :=
  let currentSelectionSet := v.currentSelectionSet
  let requirements :=
    match v.pendingFieldRequirements currentSelectionSet with
    | some r => r
    | none => { existsTracker := [], requirementConfigs := [] }
  let existsKey := (dsHash, fieldConfiguration.selectionSet)
  let requirements :=
    if !(requirements.existsTracker.contains existsKey) then
      { requirements with
        existsTracker := requirements.existsTracker ++ [existsKey],
        requirementConfigs := requirements.requirementConfigs ++
          [{ dsHash := dsHash, path := currentPath,
             selectionSet := fieldConfiguration.selectionSet,
             requestedByFieldRefs := [requestedByFieldRef] }] }
    else
      { requirements with requirementConfigs :=
          (mergeFieldRequirement requirements.requirementConfigs
            fieldConfiguration.selectionSet requestedByFieldRef) }
  let v := { v with pendingFieldRequirements :=
    (updFn v.pendingFieldRequirements currentSelectionSet (some requirements)) }
  { v with fieldRequirementsConfigs :=
    (updList v.fieldRequirementsConfigs (requestedByFieldRef, dsHash)
      (fun l => l ++ [fieldConfiguration])) }

/-- nodeSelectionVisitor.addPendingKeyRequirements. -/
def addPendingKeyRequirements (v : Visitor) (requestedByFieldRef : Int) (dsHash : DSHash)
    (possibleFieldConfigurations : List FederationFieldConfiguration)
    (isInterfaceObject : Bool) (parentPath : String) (parentDSHashes : List DSHash) : Visitor :=
  let currentSelectionSet := v.currentSelectionSet
  let requirements :=
    match v.pendingKeyRequirements currentSelectionSet with
    | some r => r
    | none => { existsTracker := [], parentDSHashes := parentDSHashes, requirementConfigs := [] }
  let existsKey := dsHash
  let requirements :=
    if !(requirements.existsTracker.contains existsKey) then
      { requirements with
        existsTracker := requirements.existsTracker ++ [existsKey],
        requirementConfigs := requirements.requirementConfigs ++
          [{ dsHash := dsHash, path := parentPath, isInterfaceObject := isInterfaceObject,
             possibleKeys := possibleFieldConfigurations,
             requestedByFieldRefs := [requestedByFieldRef] }] }
    else
      { requirements with requirementConfigs :=
          (mergeKeyRequirement requirements.requirementConfigs dsHash requestedByFieldRef) }
  { v with pendingKeyRequirements :=
    (updFn v.pendingKeyRequirements currentSelectionSet (some requirements)) }

/-- Loop body of the field-requirement dependency recording: every requesting
field ref receives all the injected field refs. -/
def fieldDependencyStep (dsHash : DSHash) (requiredFieldRefs : List Int)
    (vv : Visitor) (requestedByFieldRef : Int) : Visitor :=
  { vv with fieldDependsOn :=
    (updList vv.fieldDependsOn (requestedByFieldRef, dsHash)
      (fun l => l ++ requiredFieldRefs)) }

/-- Loop body of the key-requirement dependency recording: a requester that is
itself one of the injected key fields is skipped entirely. -/
def keyDependencyStep (dsHash : DSHash) (fieldConfiguration : FederationFieldConfiguration)
    (requiredFieldRefs : List Int) (vv : Visitor) (requestedByFieldRef : Int) : Visitor :=
  if requiredFieldRefs.contains requestedByFieldRef then vv
  else
    let fieldKey := (requestedByFieldRef, dsHash)
    let vv := { vv with fieldDependsOn :=
      (updList vv.fieldDependsOn fieldKey (fun l => l ++ requiredFieldRefs)) }
    { vv with fieldRequirementsConfigs :=
      (updList vv.fieldRequirementsConfigs fieldKey (fun l => l ++ [fieldConfiguration])) }

/-- Loop body recording the data source every injected field ref landed to. -/
def landedToStep (dsHash : DSHash) (vv : Visitor) (requiredFieldRef : Int) : Visitor :=
  { vv with fieldLandedTo := (updFn vv.fieldLandedTo requiredFieldRef (some dsHash)) }

/-- nodeSelectionVisitor.addFieldRequirementsToOperation; the enclosing type
name comes from the walker and is passed in. -/
def addFieldRequirementsToOperation (o : PlannerOracle) (v : Visitor)
    (selectionSetRef : Int) (typeName : String) (requirements : fieldRequirements) : Visitor :=
  let key := RequiredFieldsFragment typeName requirements.selectionSet false
  if !(o.fragmentParseOk typeName requirements.selectionSet false) then
    v.stopWithInternalErr ("failed to parse required fields " ++ requirements.selectionSet ++
      " for " ++ typeName ++ " at path " ++ requirements.path)
  else
    match o.addRequiredFields key selectionSetRef with
    | none =>
      v.stopWithInternalErr ("failed to add required fields " ++ requirements.selectionSet ++
        " for " ++ typeName ++ " at path " ++ requirements.path)
    | some (skipFieldRefs, requiredFieldRefs) =>
      let v := { v with skipFieldsRefs := v.skipFieldsRefs ++ skipFieldRefs }
      requirements.requestedByFieldRefs.foldl
        (fieldDependencyStep requirements.dsHash requiredFieldRefs) v

/-- nodeSelectionVisitor.processPendingFieldRequirements: fetch and delete the
pending entry, then flush every configuration in order. -/
def processPendingFieldRequirements (o : PlannerOracle) (v : Visitor)
    (selectionSetRef : Int) (typeName : String) : Visitor :=
  match v.pendingFieldRequirements selectionSetRef with
  | none => v
  | some configs =>
    let v := { v with pendingFieldRequirements :=
      (updFn v.pendingFieldRequirements selectionSetRef none) }
    configs.requirementConfigs.foldl
      (fun vv cfg => addFieldRequirementsToOperation o vv selectionSetRef typeName cfg) v

/-- The fragment built for a subgraph jump: when the requirement comes from an
interface object and lands on an interface object, __typename is disallowed. -/
def injectedKeyFragment (requirements : keyRequirements) (landedTo : DataSource)
    (typeName : String) (selectionSet : String) : KeyFragment :=
  let requirementsFromInterfaceObject := requirements.isInterfaceObject
  let requirementsToInterfaceObject := landedTo.hasInterfaceObject typeName
  let dissalowTypeName := requirementsFromInterfaceObject && requirementsToInterfaceObject
  RequiredFieldsFragment typeName selectionSet (!dissalowTypeName)

/-- nodeSelectionVisitor.addKeyRequirementsToOperation. -/
def addKeyRequirementsToOperation (o : PlannerOracle) (v : Visitor) (selectionSetRef : Int)
    (typeName : String) (requirements : keyRequirements) (landedTo : DataSource)
    (fieldConfiguration : FederationFieldConfiguration) : Visitor :=
  let key := injectedKeyFragment requirements landedTo typeName fieldConfiguration.selectionSet
  if !(o.fragmentParseOk typeName fieldConfiguration.selectionSet key.hasTypename) then
    v.stopWithInternalErr ("failed to parse required fields " ++
      fieldConfiguration.selectionSet ++ " for " ++ typeName ++ " at path " ++ requirements.path)
  else
    match o.addRequiredFields key selectionSetRef with
    | none =>
      v.stopWithInternalErr ("failed to add required fields " ++
        fieldConfiguration.selectionSet ++ " for " ++ typeName ++ " at path " ++ requirements.path)
    | some (skipFieldRefs, requiredFieldRefs) =>
      let v1 := { v with skipFieldsRefs := v.skipFieldsRefs ++ skipFieldRefs }
      let v2 := requirements.requestedByFieldRefs.foldl
        (keyDependencyStep requirements.dsHash fieldConfiguration requiredFieldRefs) v1
      requiredFieldRefs.foldl (landedToStep landedTo.hash) v2

/-- First possible key configuration the data source can satisfy. -/
def findKeyMatch (ds : DataSource) :
    List FederationFieldConfiguration → Option FederationFieldConfiguration
  | [] => none
  | p :: rest =>
    if ds.hasKeyRequirement p.typeName p.selectionSet then some p else findKeyMatch ds rest

/-- Inner loop of matchDataSourcesByKeyConfiguration over the data sources. -/
def matchDSLoop (o : PlannerOracle) (v : Visitor) (selectionSetRef : Int)
    (requirements : keyRequirements) (dsHashes : List DSHash) :
    List DataSource → Visitor × Bool
  | [] => (v, false)
  | ds :: rest =>
    if !(dsHashes.contains ds.hash) then
      matchDSLoop o v selectionSetRef requirements dsHashes rest
    else
      match findKeyMatch ds requirements.possibleKeys with
      | some possibleRequiredFieldConfig =>
        (addKeyRequirementsToOperation o v selectionSetRef
          possibleRequiredFieldConfig.typeName requirements ds possibleRequiredFieldConfig, true)
      | none => matchDSLoop o v selectionSetRef requirements dsHashes rest

/-- nodeSelectionVisitor.matchDataSourcesByKeyConfiguration. -/
def matchDataSourcesByKeyConfiguration (o : PlannerOracle) (v : Visitor)
    (selectionSetRef : Int) (requirements : keyRequirements) (dsHashes : List DSHash) :
    Visitor × Bool :=
  matchDSLoop o v selectionSetRef requirements dsHashes v.dataSources

/-- One round of the pending key-requirement matching: requirements matched
against the available hashes contribute their hash to the next round, the
rest stay pending. -/
def keyReqRound (o : PlannerOracle) (selectionSetRef : Int) (availableHashes : List DSHash) :
    List keyRequirements → Visitor → Visitor × List DSHash × List keyRequirements
  | [], v => (v, [], [])
  | req :: rest, v =>
    let m := matchDataSourcesByKeyConfiguration o v selectionSetRef req availableHashes
    let r := keyReqRound o selectionSetRef availableHashes rest m.1
    if m.2 then (r.1, req.dsHash :: r.2.1, r.2.2)
    else (r.1, r.2.1, req :: r.2.2)

/-- The matching loop of processPendingKeyRequirements: the Go loop runs while
requirements are pending, with no progress check, so the model spends fuel per
round; none models an execution that exhausts every budget. -/
def keyReqLoop (o : PlannerOracle) (selectionSetRef : Int) :
    Nat → Visitor → List DSHash → List keyRequirements → Option Visitor
  | _, v, _, [] => some v
  | 0, _, _, _ :: _ => none
  | fuel + 1, v, availableHashes, pending =>
    let r := keyReqRound o selectionSetRef availableHashes pending v
    keyReqLoop o selectionSetRef fuel r.1 r.2.1 r.2.2

/-- nodeSelectionVisitor.processPendingKeyRequirements: fetch and delete the
pending entry, then saturate matching from the parent data-source hashes. -/
def processPendingKeyRequirements (o : PlannerOracle) (fuel : Nat) (v : Visitor)
    (selectionSetRef : Int) : Option Visitor :=
  match v.pendingKeyRequirements selectionSetRef with
  | none => some v
  | some configs =>
    let v := { v with pendingKeyRequirements :=
      (updFn v.pendingKeyRequirements selectionSetRef none) }
    keyReqLoop o selectionSetRef fuel v configs.parentDSHashes configs.requirementConfigs

/-- Modelled from the spec: keys.FilterByTypeAndResolvability(typeName, false)
selects the federation keys of the type that are non-resolvable, i.e. whose
entity resolver is disabled. -/
def filterByTypeAndResolvability (keys : List FederationFieldConfiguration)
    (typeName : String) (resolvable : Bool) : List FederationFieldConfiguration :=
  keys.filter (fun k => k.typeName == typeName && (!k.disableEntityResolver) == resolvable)

/-- The GraphQL introspection type-name field. -/
def typeNameField : String := "__typename"

/-- nodeSelectionVisitor.handleFieldsRequiredByKey.  The response-tree lookup
and the collection of the selected parent data-source hashes read walker and
node-suggestion state outside this file; the model takes their results as the
fieldFoundInResponseTree and selectedParentsDSHashes inputs.  Where the Go
code indexes keyConfigurations[0], an empty list would panic; the model
records that as a fatal error. -/
def handleFieldsRequiredByKey (v : Visitor) (fieldRef : Int)
    (parentPath typeName fieldName : String) (dsConfig : DataSource)
    (fieldFoundInResponseTree : Bool) (selectedParentsDSHashes : List DSHash) : Visitor :=
  let fieldKey := (fieldRef, dsConfig.hash)
  if v.visitedFieldsKeyChecks fieldKey then v
  else
    let v := { v with visitedFieldsKeyChecks := (updFn v.visitedFieldsKeyChecks fieldKey true) }
    let hasRequiresCondition := (dsConfig.requiredFieldsByRequires typeName fieldName).isSome
    if !fieldFoundInResponseTree then v
    else
      let entityInterface := dsConfig.hasEntityInterface typeName
      let interfaceObject := dsConfig.hasInterfaceObject typeName
      if fieldName == typeNameField && !entityInterface then v
      else
        let sameAsParentDS := selectedParentsDSHashes == [dsConfig.hash]
        if sameAsParentDS && !hasRequiresCondition then v
        else
          let keyConfigurations := dsConfig.requiredFieldsByKey typeName
          let keyConfigurations :=
            if keyConfigurations.isEmpty && hasRequiresCondition then
              filterByTypeAndResolvability dsConfig.federationKeys typeName false
            else keyConfigurations
          if keyConfigurations.isEmpty && !sameAsParentDS then v
          else if sameAsParentDS then
            match keyConfigurations.head? with
            | none => v.stopWithInternalErr "panic: index out of range"
            | some k0 =>
              let v := addPendingKeyRequirements v fieldRef dsConfig.hash [k0] false
                parentPath selectedParentsDSHashes
              { v with hasNewFields := true }
          else
            let v := addPendingKeyRequirements v fieldRef dsConfig.hash keyConfigurations
              interfaceObject parentPath selectedParentsDSHashes
            { v with hasNewFields := true }

/-- Operations on the pending-requirement state: entering a selection set and
the two add calls, used to close the state under arbitrary call sequences. -/
inductive PendingOp where
  | enterSelectionSet (ref : Int)
  | addKey (requestedByFieldRef : Int) (dsHash : DSHash)
      (possibleFieldConfigurations : List FederationFieldConfiguration)
      (isInterfaceObject : Bool) (parentPath : String) (parentDSHashes : List DSHash)
  | addField (requestedByFieldRef : Int) (dsHash : DSHash)
      (fieldConfiguration : FederationFieldConfiguration) (currentPath : String)

/-- Apply one pending-state operation. -/
def applyPendingOp (v : Visitor) : PendingOp → Visitor
  | .enterSelectionSet ref => { v with selectionSetRefs := v.selectionSetRefs ++ [ref] }
  | .addKey r ds cfgs iob p hashes => addPendingKeyRequirements v r ds cfgs iob p hashes
  | .addField r ds cfg p => addPendingFieldRequirements v r ds cfg p

/-- Apply a sequence of pending-state operations. -/
def applyPendingOps (v : Visitor) (ops : List PendingOp) : Visitor :=
  ops.foldl applyPendingOp v

end Plan

/-!
Definitions supporting the study of fetch parallelism: the serialisation of a
fetch tree, the flat list of buffer writes a fetch performs, and the relation
reordering the fetch lists of parallel groups, which models arbitrary
completion orders of the spawned fetches.
-/

namespace Exec

mutual
/-- Replace every ParallelFetch by a SerialFetch over the same inner fetches. -/
def serializeFetch : Fetch → Fetch
  | .single bn c i => .single bn c i
  | .serial fs => .serial (serializeFetchList fs)
  | .parallel fs => .serial (serializeFetchList fs)
/-- Serialise every fetch of a group. -/
def serializeFetchList : FetchList → FetchList
  | .nil => .nil
  | .cons f rest => .cons (serializeFetch f) (serializeFetchList rest)
end

mutual
/-- Serialise every fetch tree hanging off a plan tree. -/
def serializeNode : Node → Node
  | .object fields path fetch =>
    .object (serializeFieldList fields) path (fetch.map serializeFetch)
  | .list path filt v => .list path filt (serializeNode v)
  | .value path quote => .value path quote
/-- Serialise a field list. -/
def serializeFieldList : FieldList → FieldList
  | .nil => .nil
  | .cons f rest => .cons (serializeFld f) (serializeFieldList rest)
/-- Serialise a field. -/
def serializeFld : Fld → Fld
  | .mk name skip hasResolver value => .mk name skip hasResolver (serializeNode value)
end

mutual
/-- The buffer writes a fetch performs, in serial order. -/
def fetchWrites : Fetch → String → List (String × Jd)
  | .single bufferName content _, path => [(path ++ "." ++ bufferName, content)]
  | .serial fs, path => fetchListWrites fs path
  | .parallel fs, path => fetchListWrites fs path
/-- The buffer writes of a fetch group, in order. -/
def fetchListWrites : FetchList → String → List (String × Jd)
  | .nil, _ => []
  | .cons f rest, path => fetchWrites f path ++ fetchListWrites rest path
end

/-- Apply a list of buffer writes in order. -/
def applyWrites (ws : List (String × Jd)) (b : BufMap) : BufMap :=
  ws.foldl (fun bb kv => bufInsert bb kv.1 kv.2) b

/-- Reordering of a fetch group, generated like a list permutation. -/
inductive FetchListReorder : FetchList → FetchList → Prop where
  | nil : FetchListReorder .nil .nil
  | cons : ∀ {t t2} (f : Fetch), FetchListReorder t t2 →
      FetchListReorder (.cons f t) (.cons f t2)
  | swap : ∀ (a b : Fetch) (t : FetchList),
      FetchListReorder (.cons a (.cons b t)) (.cons b (.cons a t))
  | trans : ∀ {l1 l2 l3}, FetchListReorder l1 l2 → FetchListReorder l2 l3 →
      FetchListReorder l1 l3

mutual
/-- Fetch trees equal up to reordering the fetch list of parallel groups:
this models an arbitrary completion order of the concurrently spawned
fetches of every ParallelFetch. -/
inductive FetchPerm : Fetch → Fetch → Prop where
  | single : ∀ bn c i, FetchPerm (.single bn c i) (.single bn c i)
  | serial : ∀ {fs fs2}, FetchListPerm fs fs2 → FetchPerm (.serial fs) (.serial fs2)
  | parallel : ∀ {fs fs1 fs2}, FetchListPerm fs fs1 → FetchListReorder fs1 fs2 →
      FetchPerm (.parallel fs) (.parallel fs2)
/-- Pointwise FetchPerm over a group. -/
inductive FetchListPerm : FetchList → FetchList → Prop where
  | nil : FetchListPerm .nil .nil
  | cons : ∀ {f f2 t t2}, FetchPerm f f2 → FetchListPerm t t2 →
      FetchListPerm (.cons f t) (.cons f2 t2)
end

end Exec

/-!
Invariant predicates for the pending-requirement dedup trackers, and the
concrete inputs used by the closed statements below.
-/

namespace Plan

/-- Dedup invariant of pending key requirements: the configuration hashes are
pairwise distinct and the tracker holds exactly them. -/
def keyPendingInv (p : pendingKeyRequirements) : Prop :=
  (p.requirementConfigs.map (fun c => c.dsHash)).Nodup ∧
  ∀ h, h ∈ p.existsTracker ↔ h ∈ p.requirementConfigs.map (fun c => c.dsHash)

/-- Dedup invariant of pending field requirements on the (dsHash, selectionSet)
composite key. -/
def fieldPendingInv (p : pendingFieldRequirements) : Prop :=
  (p.requirementConfigs.map (fun c => (c.dsHash, c.selectionSet))).Nodup ∧
  ∀ k, k ∈ p.existsTracker ↔ k ∈ p.requirementConfigs.map (fun c => (c.dsHash, c.selectionSet))

/-- Dedup invariant over every selection set of a visitor. -/
def visitorPendingInv (v : Visitor) : Prop :=
  (∀ ss p, v.pendingKeyRequirements ss = some p → keyPendingInv p) ∧
  (∀ ss p, v.pendingFieldRequirements ss = some p → fieldPendingInv p)

/-- A data source that can satisfy no key requirement at all. -/
def dsNoKeys : DataSource :=
  { hash := 1, requiredFieldsByKey := fun _ => [],
    requiredFieldsByRequires := fun _ _ => none,
    hasKeyRequirement := fun _ _ => false,
    hasInterfaceObject := fun _ => false,
    hasEntityInterface := fun _ => false,
    federationKeys := [] }

/-- A key configuration on type User selecting id. -/
def confUserId : FederationFieldConfiguration :=
  { typeName := "User", selectionSet := "id", disableEntityResolver := false }

/-- A pending key requirement towards data source 2 that no available data
source can match. -/
def reqUnmatched : keyRequirements :=
  { dsHash := 2, path := "query.me", isInterfaceObject := false,
    possibleKeys := [confUserId], requestedByFieldRefs := [3] }

/-- The pending entry holding the unmatchable requirement, with parent data
source 1. -/
def pendingUnmatched : pendingKeyRequirements :=
  { existsTracker := [2], parentDSHashes := [1], requirementConfigs := [reqUnmatched] }

/-- A visitor holding the unmatchable requirement for selection set 7. -/
def visitorUnmatched : Visitor :=
  { initVisitor [dsNoKeys] with pendingKeyRequirements :=
    (updFn (fun _ => none) 7 (some pendingUnmatched)) }

/-- An oracle on which fragment parsing and field injection always succeed and
inject nothing. -/
def oracleOk : PlannerOracle :=
  { fragmentParseOk := fun _ _ _ => true, addRequiredFields := fun _ _ => some ([], []) }

/-- An oracle whose injection returns field refs 1 and 2 and skips nothing. -/
def oracleInject12 : PlannerOracle :=
  { fragmentParseOk := fun _ _ _ => true, addRequiredFields := fun _ _ => some ([], [1, 2]) }

/-- A key requirement of data source 5 requested only by field ref 1. -/
def reqBy1 : keyRequirements :=
  { dsHash := 5, path := "query.me", isInterfaceObject := false,
    possibleKeys := [], requestedByFieldRefs := [1] }

/-- The operation sequence of the field-requirement dedup counterexample:
three adds sharing the selection set "x", the last duplicating data source 2. -/
def fieldDupOps : List PendingOp :=
  [ .enterSelectionSet 4,
    .addField 1 1 { typeName := "T", selectionSet := "x", disableEntityResolver := false } "p",
    .addField 2 2 { typeName := "T", selectionSet := "x", disableEntityResolver := false } "p",
    .addField 3 2 { typeName := "T", selectionSet := "x", disableEntityResolver := false } "p" ]

/-- A visitor with one pending key requirement of data source 2 under the
current (only) selection set 4. -/
def visitorWithKey2 : Visitor :=
  applyPendingOps (initVisitor []) [.enterSelectionSet 4, .addKey 8 2 [] false "p" []]

end Plan

namespace Exec

/-- An execution context with no variables and no extra arguments. -/
def ctx0 : Context := { vars := fun _ => none, extraArguments := .nil }

/-- The initial executor state with a sink that never fails. -/
def st0 : ExecState := initState none bufEmpty

/-- A plan whose root fetch is a SerialFetch around one inner fetch returning
KeepStreamAlive. -/
def rootSerialKeep : Node :=
  .object .nil [] (some (.serial (.cons (.single "b" (.raw "x") .keepStreamAlive) .nil)))

/-- A plan whose resolver field navigates a missing key after the root fetch
filled its buffer: used to exercise the writer error path. -/
def rootErrClobber : Node :=
  .object (.cons (.mk "a" none true (.value ["x"] false)) .nil) []
    (some (.single "a" (.raw "z") .closeConnection))

end Exec

/-- The key requirement visitorWithKey2 holds. -/
def reqKey2 : Plan.keyRequirements :=
  { dsHash := 2, path := "p", isInterfaceObject := false,
    possibleKeys := [], requestedByFieldRefs := [8] }

/-- The pending entry visitorWithKey2 holds for selection set 4. -/
def pendingKey2 : Plan.pendingKeyRequirements :=
  { existsTracker := [2], parentDSHashes := [], requirementConfigs := [reqKey2] }

/-- A ParallelFetch of two singles filling distinct buffers, spawn order. -/
def c5par1 : Exec.Fetch :=
  .parallel (.cons (.single "a" (.raw "1") .closeConnection)
    (.cons (.single "b" (.raw "2") .closeConnection) .nil))

/-- The same group with the two fetches completing in the opposite order. -/
def c5par2 : Exec.Fetch :=
  .parallel (.cons (.single "b" (.raw "2") .closeConnection)
    (.cons (.single "a" (.raw "1") .closeConnection) .nil))

/-!
Theorems.  Shared helper lemmas come first, then one theorem per claim with
its witness or counterexample.
-/

/-- A write with no error and a never-failing sink appends to the output. -/
theorem write_ok (t : Exec.ExecState) (d : String) (h1 : t.err = none)
    (h2 : t.failAt = none) :
    t.write d = { t with out := t.out ++ [d], writeCount := t.writeCount + 1 } := by
  simp [Exec.ExecState.write, h1, h2]

/-- Writes never change the collected instructions. -/
theorem write_instr (t : Exec.ExecState) (d : String) :
    (t.write d).instructions = t.instructions := by
  unfold Exec.ExecState.write
  split
  · rfl
  · split <;> rfl

/-- Path navigation of the Object case never changes the instructions. -/
theorem objectNavigate_instr (data : Exec.Jdata) (opath : List String) (s : Exec.ExecState) :
    (Exec.objectNavigate data opath s).2.2.instructions = s.instructions := by
  unfold Exec.objectNavigate
  split
  · split <;> simp [write_instr]
  · rfl

/-- C10: for every Value node whose incoming data is the four bytes null, the
executor writes unquoted null and returns at once, regardless of QuoteValue
and without navigating the node path. -/
theorem c10_value_null_shortcut (ctx : Exec.Context) (vpath : List String) (quote : Bool)
    (data : Exec.Jdata) (path : String) (pf sf : Bool) (s : Exec.ExecState)
    (h : Exec.dataBytes data = "null") :
    Exec.resolveNode ctx (.value vpath quote) data path pf sf s = s.write "null" := by
  simp [Exec.resolveNode, h]

/-- Witness for c10_value_null_shortcut at a concrete Value node with a quoted
value and a non-empty path. -/
theorem c10_value_null_shortcut_witness :
    Exec.dataBytes (some (.raw "null")) = "null" ∧
    Exec.resolveNode Exec.ctx0 (.value ["a"] true) (some (.raw "null")) "query" false true
      Exec.st0 = Exec.st0.write "null" :=
  ⟨rfl, c10_value_null_shortcut Exec.ctx0 ["a"] true (some (.raw "null")) "query" false true
    Exec.st0 rfl⟩

/-- C2 counterexample: rendering a List node on empty incoming data writes the
bytes null, not the balanced brackets the claim requires for an empty list. -/
theorem c2_empty_data_writes_null_counterexample :
    (Exec.resolveNode Exec.ctx0 (.list ["items"] none (.value [] false)) (some (.raw ""))
      "query" false true Exec.st0).out = ["null"] ∧
    (["null"] : List String) ≠ ["[", "]"] :=
  ⟨rfl, by decide⟩

/-- C2 as amended: on non-empty incoming data, a List node whose array is
absent at the node path or has zero items renders the balanced brackets and
leaves no error; only the empty-data case degenerates to null. -/
theorem c2_list_balanced_brackets (ctx : Exec.Context) (lpath : List String)
    (filt : Option Nat) (v : Exec.Node) (data : Exec.Jdata) (path : String)
    (pf sf : Bool) (s : Exec.ExecState)
    (hbytes : ¬ Exec.dataBytes data = "")
    (hitems : (Exec.arrayEach data lpath).1 = [])
    (herr : s.err = none) (hfail : s.failAt = none) :
    (Exec.resolveNode ctx (.list lpath filt v) data path pf sf s).out = s.out ++ ["[", "]"] ∧
    (Exec.resolveNode ctx (.list lpath filt v) data path pf sf s).err = none := by
  cases filt <;>
    simp [Exec.resolveNode, hbytes, hitems, Exec.renderLoop, Exec.listTail,
      Exec.ExecState.write, herr, hfail]

/-- Witness for c2_list_balanced_brackets on scalar data with a missing path. -/
theorem c2_list_balanced_brackets_witness :
    (¬ Exec.dataBytes (some (.raw "z")) = "") ∧
    (Exec.arrayEach (some (.raw "z")) ["x"]).1 = [] ∧
    ((Exec.resolveNode Exec.ctx0 (.list ["x"] none (.value [] false)) (some (.raw "z"))
        "query" false true Exec.st0).out = Exec.st0.out ++ ["[", "]"] ∧
     (Exec.resolveNode Exec.ctx0 (.list ["x"] none (.value [] false)) (some (.raw "z"))
        "query" false true Exec.st0).err = none) :=
  ⟨by decide, rfl,
   c2_list_balanced_brackets Exec.ctx0 ["x"] none (.value [] false) (some (.raw "z"))
     "query" false true Exec.st0 (by decide) rfl rfl rfl⟩


/-- The fetch step only appends to the collected instructions. -/
theorem fetchStep_instr (fetch : Option Exec.Fetch) (sf : Bool) (path : String)
    (s1 : Exec.ExecState) :
    ∃ l, (Exec.fetchStep fetch sf path s1).instructions = s1.instructions ++ l := by
  cases sf <;> cases fetch <;> simp [Exec.fetchStep]

/-- The list tail never changes the collected instructions. -/
theorem listTail_instr (m : Nat) (s3 : Exec.ExecState) :
    (Exec.listTail m s3).instructions = s3.instructions := by
  unfold Exec.listTail
  split <;> simp [write_instr]

/-- The quote-aware write never changes the collected instructions. -/
theorem quoteWrite_instr (s : Exec.ExecState) (q : Bool) (d : String) :
    (Exec.quoteWrite s q d).instructions = s.instructions := by
  unfold Exec.quoteWrite
  cases q <;> simp [write_instr]

/-- An indexed render loop whose body only appends instructions itself only
appends instructions. -/
theorem renderLoop_instr_ext (f : Nat → Exec.Jd → Exec.ExecState → Exec.ExecState)
    (hf : ∀ i item st, ∃ l, (f i item st).instructions = st.instructions ++ l) :
    ∀ (items : List Exec.Jd) (i : Nat) (s : Exec.ExecState),
      ∃ l, (Exec.renderLoop f items i s).instructions = s.instructions ++ l
  | [], _, s => ⟨[], by simp [Exec.renderLoop]⟩
  | item :: rest, i, s => by
    obtain ⟨l1, h1⟩ := hf i item s
    obtain ⟨l2, h2⟩ := renderLoop_instr_ext f hf rest (i + 1) (f i item s)
    exact ⟨l1 ++ l2, by rw [Exec.renderLoop, h2, h1, List.append_assoc]⟩

/-- Composition of the list-case tail for instruction extension. -/
theorem listCase_instr_ext (f g : Nat → Exec.Jd → Exec.ExecState → Exec.ExecState)
    (hf : ∀ i item st, ∃ l, (f i item st).instructions = st.instructions ++ l)
    (hg : ∀ i item st, ∃ l, (g i item st).instructions = st.instructions ++ l)
    (items : List Exec.Jd) (m : Nat) (c : Bool) (e : Option Exec.GoErr) (s : Exec.ExecState) :
    ∃ l, (Exec.listTail m (Exec.renderLoop g items 0
        (if c then Exec.renderLoop f items 0 { s with err := e }
         else { s with err := e }))).instructions = s.instructions ++ l := by
  have h1 : ∃ l1, (if c then Exec.renderLoop f items 0 { s with err := e }
      else { s with err := e }).instructions = s.instructions ++ l1 := by
    cases c
    · exact ⟨[], by simp⟩
    · obtain ⟨l, hl⟩ := renderLoop_instr_ext f hf items 0 { s with err := e }
      exact ⟨l, by simpa using hl⟩
  obtain ⟨l1, h1⟩ := h1
  obtain ⟨l2, h2⟩ := renderLoop_instr_ext g hg items 0
    (if c then Exec.renderLoop f items 0 { s with err := e } else { s with err := e })
  exact ⟨l1 ++ l2, by rw [listTail_instr, h2, h1, List.append_assoc]⟩

/-- Composition of the field tail for instruction extension. -/
theorem fldTail_instr_ext (ctx : Exec.Context) (value : Exec.Node)
    (hv : ∀ d p st, ∃ l,
      (Exec.resolveNode ctx value d p false true st).instructions = st.instructions ++ l)
    (name : String) (data : Exec.Jdata) (path1 : String) (s : Exec.ExecState) :
    ∃ l, (if Exec.dataBytes data = "" && !value.hasResolvers then
        (((((s.write "\"").write name).write "\"").write ":").write "null")
      else Exec.resolveNode ctx value data path1 false true
        ((((s.write "\"").write name).write "\"").write ":")).instructions
      = s.instructions ++ l := by
  split
  · exact ⟨[], by simp [write_instr]⟩
  · obtain ⟨l, hl⟩ := hv data path1 ((((s.write "\"").write name).write "\"").write ":")
    exact ⟨l, by simp [hl, write_instr]⟩

mutual
/-- Resolving a node only appends to the collected instructions. -/
theorem resolveNode_instr_ext (ctx : Exec.Context) :
    ∀ (n : Exec.Node) (data : Exec.Jdata) (path : String) (pf sf : Bool) (s : Exec.ExecState),
      ∃ l, (Exec.resolveNode ctx n data path pf sf s).instructions = s.instructions ++ l
  | .object fields opath fetch, data, path, pf, sf, s => by
    rw [Exec.resolveNode]
    have hnav := objectNavigate_instr data opath s
    rcases hn : Exec.objectNavigate data opath s with ⟨cont, data1, s1⟩
    rw [hn] at hnav
    simp only at hnav
    cases cont with
    | false => exact ⟨[], by simp [hnav]⟩
    | true =>
      dsimp only
      obtain ⟨l2, h2⟩ := fetchStep_instr fetch sf path s1
      cases pf with
      | true => exact ⟨l2, by rw [if_pos rfl, h2, hnav]⟩
      | false =>
        by_cases hnull : Exec.dataBytes data1 = "null"
        · exact ⟨l2, by rw [if_neg (by simp), if_pos hnull, write_instr, h2, hnav]⟩
        · obtain ⟨l3, h3⟩ := resolveFields_instr_ext ctx fields 0 data1 path
            ((Exec.fetchStep fetch sf path s1).write "\x7b")
          refine ⟨l2 ++ l3, ?_⟩
          rw [if_neg (by simp), if_neg hnull, write_instr, h3, write_instr, h2, hnav,
            List.append_assoc]
  | .list lpath filt v, data, path, pf, sf, s => by
    rw [Exec.resolveNode]
    by_cases hb : Exec.dataBytes data = ""
    · exact ⟨[], by rw [if_pos hb]; simp [write_instr]⟩
    · rw [if_neg hb]
      have hf : ∀ (i : Nat) (item : Exec.Jd) (st : Exec.ExecState), ∃ l,
          (Exec.resolveNode ctx v (some item) (path ++ "." ++ toString i) true true
            st).instructions = st.instructions ++ l :=
        fun i item st => resolveNode_instr_ext ctx v (some item)
          (path ++ "." ++ toString i) true true st
      have hg : ∀ (i : Nat) (item : Exec.Jd) (st : Exec.ExecState), ∃ l,
          (Exec.resolveNode ctx v (some item) (path ++ "." ++ toString i) false false
            (st.write (if i = 0 then "[" else ","))).instructions
            = st.instructions ++ l := by
        intro i item st
        obtain ⟨l, hl⟩ := resolveNode_instr_ext ctx v (some item)
          (path ++ "." ++ toString i) false false (st.write (if i = 0 then "[" else ","))
        exact ⟨l, by rw [hl, write_instr]⟩
      dsimp only
      exact listCase_instr_ext _ _ hf hg _ _ _ _ s
  | .value vpath quote, data, path, pf, sf, s => by
    rw [Exec.resolveNode]
    split
    · exact ⟨[], by simp [write_instr]⟩
    · split
      · exact ⟨[], by simp [quoteWrite_instr]⟩
      · split
        · exact ⟨[], by simp [write_instr]⟩
        · exact ⟨[], by simp [quoteWrite_instr]⟩
        · exact ⟨[], by simp [quoteWrite_instr]⟩
/-- Resolving a field only appends to the collected instructions. -/
theorem resolveFld_instr_ext (ctx : Exec.Context) :
    ∀ (f : Exec.Fld) (data : Exec.Jdata) (path : String) (s : Exec.ExecState),
      ∃ l, (Exec.resolveFld ctx f data path s).instructions = s.instructions ++ l
  | .mk name skip hasResolver value, data, path, s => by
    rw [Exec.resolveFld]
    have hv : ∀ d p st, ∃ l,
        (Exec.resolveNode ctx value d p false true st).instructions = st.instructions ++ l :=
      fun d p st => resolveNode_instr_ext ctx value d p false true st
    cases hasResolver with
    | false =>
      rw [if_neg (by simp)]
      exact fldTail_instr_ext ctx value hv name data (path ++ "." ++ name) s
    | true =>
      rw [if_pos rfl]
      rcases hbuf : s.buffers (path ++ "." ++ name) with _ | content
      · exact ⟨[], by simp [write_instr]⟩
      · dsimp only
        exact fldTail_instr_ext ctx value hv name (some content) (path ++ "." ++ name) s
/-- Resolving a field list only appends to the collected instructions. -/
theorem resolveFields_instr_ext (ctx : Exec.Context) :
    ∀ (fl : Exec.FieldList) (i : Nat) (data : Exec.Jdata) (path : String) (s : Exec.ExecState),
      ∃ l, (Exec.resolveFields ctx fl i data path s).instructions = s.instructions ++ l
  | .nil, _, _, _, s => ⟨[], by simp [Exec.resolveFields]⟩
  | .cons f rest, i, data, path, s => by
    rw [Exec.resolveFields]
    by_cases hskip : Exec.fldSkipped ctx f data = true
    · rw [if_pos hskip]
      exact resolveFields_instr_ext ctx rest (i + 1) data path s
    · rw [if_neg hskip]
      obtain ⟨l0, h0⟩ : ∃ l0,
          (if i ≠ 0 then s.write "," else s).instructions = s.instructions ++ l0 := by
        split
        · exact ⟨[], by simp [write_instr]⟩
        · exact ⟨[], by simp⟩
      obtain ⟨l1, h1⟩ := resolveFld_instr_ext ctx f data path (if i ≠ 0 then s.write "," else s)
      obtain ⟨l2, h2⟩ := resolveFields_instr_ext ctx rest (i + 1) data path
        (Exec.resolveFld ctx f data path (if i ≠ 0 then s.write "," else s))
      exact ⟨l0 ++ l1 ++ l2, by rw [h2, h1, h0]; simp [List.append_assoc]⟩
end

/-- C4 counterexample: the KeepStreamAlive Instruction of an inner fetch of a
SerialFetch never reaches the instruction list Execute returns; only the
group's own CloseConnection does. -/
theorem c4_inner_instruction_discarded_counterexample :
    (Exec.Execute Exec.ctx0 .query Exec.rootSerialKeep none Exec.bufEmpty).instructions
      = [.closeConnection] ∧
    Exec.Instruction.keepStreamAlive ∉
      (Exec.Execute Exec.ctx0 .query Exec.rootSerialKeep none Exec.bufEmpty).instructions :=
  ⟨rfl, by decide⟩

/-- C4 as amended: Execute collects, in execution order, exactly the
Instructions returned by the fetches invoked directly at Object nodes;
SerialFetch and ParallelFetch always return CloseConnection themselves and the
Instructions of their inner fetches are discarded. -/
theorem c4_instructions_amended :
    (∀ (fs : Exec.FetchList) (path : String) (b : Exec.BufMap),
      (Exec.runFetch (.serial fs) path b).2 = .closeConnection) ∧
    (∀ (fs : Exec.FetchList) (path : String) (b : Exec.BufMap),
      (Exec.runFetch (.parallel fs) path b).2 = .closeConnection) ∧
    (∀ (bn : String) (c : Exec.Jd) (i : Exec.Instruction) (path : String) (b : Exec.BufMap),
      (Exec.runFetch (.single bn c i) path b).2 = i) ∧
    (∀ (ctx : Exec.Context) (fields : Exec.FieldList) (fetch : Exec.Fetch) (data : Exec.Jd)
        (path : String) (s : Exec.ExecState), ∃ rest,
      (Exec.resolveNode ctx (.object fields [] (some fetch)) (some data) path false true
        s).instructions = s.instructions ++ (Exec.runFetch fetch path s.buffers).2 :: rest) := by
  refine ⟨fun _ _ _ => rfl, fun _ _ _ => rfl, fun _ _ _ _ _ => rfl, ?_⟩
  intro ctx fields fetch data path s
  rw [Exec.resolveNode]
  have hnav : Exec.objectNavigate (some data) [] s = (true, some data, s) := rfl
  rw [hnav]
  dsimp only
  rw [if_neg (by simp)]
  have hstep : (Exec.fetchStep (some fetch) true path s).instructions
      = s.instructions ++ [(Exec.runFetch fetch path s.buffers).2] := rfl
  by_cases hnull : Exec.dataBytes (some data) = "null"
  · refine ⟨[], ?_⟩
    rw [if_pos hnull, write_instr, hstep]
  · obtain ⟨l3, h3⟩ := resolveFields_instr_ext ctx fields 0 (some data) path
      ((Exec.fetchStep (some fetch) true path s).write "\x7b")
    refine ⟨l3, ?_⟩
    rw [if_neg hnull, write_instr, h3, write_instr, hstep]
    simp

/-- C6: an execution in which the first write fails, after which a Value
node's path navigation misses and stores nil into the executor error: the
failed write's error is clobbered, Execute returns no error, and writes after
the failure were performed. -/
theorem c6_first_write_error_clobbered_bug :
    (Exec.Execute Exec.ctx0 .query Exec.rootErrClobber (some 0) Exec.bufEmpty).err = none ∧
    (Exec.Execute Exec.ctx0 .query Exec.rootErrClobber (some 0) Exec.bufEmpty).out
      = ["null", "\x7d"] :=
  ⟨rfl, rfl⟩

/-- C9: the injected key fragment of a subgraph jump omits __typename exactly
when the requirement's source is an interface object and the data source the
key lands on represents the type as an interface object. -/
theorem c9_interface_object_typename_rule (requirements : Plan.keyRequirements)
    (landedTo : Plan.DataSource) (typeName selectionSet : String) :
    (Plan.injectedKeyFragment requirements landedTo typeName selectionSet).hasTypename
        = false ↔
      (requirements.isInterfaceObject = true ∧
        landedTo.hasInterfaceObject typeName = true) := by
  cases hq : requirements.isInterfaceObject <;>
    cases hl : landedTo.hasInterfaceObject typeName <;>
      simp [Plan.injectedKeyFragment, Plan.RequiredFieldsFragment, hq, hl]

/-- The unmatchable requirement matches no data source, whatever hashes are
available, because the only data source satisfies no key requirement. -/
theorem c1_match_unmatched_none (v : Plan.Visitor) (h : v.dataSources = [Plan.dsNoKeys])
    (avail : List Plan.DSHash) :
    Plan.matchDataSourcesByKeyConfiguration Plan.oracleOk v 7 Plan.reqUnmatched avail
      = (v, false) := by
  unfold Plan.matchDataSourcesByKeyConfiguration
  rw [h, Plan.matchDSLoop]
  split
  · rfl
  · rfl

/-- The matching loop never terminates on the unmatchable requirement: every
round leaves the requirement pending, for any fuel. -/
theorem c1_loop_never_terminates : ∀ (fuel : Nat) (v : Plan.Visitor),
    v.dataSources = [Plan.dsNoKeys] → ∀ avail,
    Plan.keyReqLoop Plan.oracleOk 7 fuel v avail [Plan.reqUnmatched] = none
  | 0, v, _, avail => rfl
  | fuel + 1, v, h, avail => by
    have ih := c1_loop_never_terminates fuel v h []
    have hm := c1_match_unmatched_none v h avail
    have hround : Plan.keyReqRound Plan.oracleOk 7 avail [Plan.reqUnmatched] v
        = (v, [], [Plan.reqUnmatched]) := by
      rw [Plan.keyReqRound, hm]
      rfl
    show Plan.keyReqLoop Plan.oracleOk 7 fuel
      (Plan.keyReqRound Plan.oracleOk 7 avail [Plan.reqUnmatched] v).1
      (Plan.keyReqRound Plan.oracleOk 7 avail [Plan.reqUnmatched] v).2.1
      (Plan.keyReqRound Plan.oracleOk 7 avail [Plan.reqUnmatched] v).2.2 = none
    rw [hround]
    exact ih

/-- C1: the pending key-requirement processing violates the claim twice.  On a
selection set holding a requirement no available data source can match, the
matching loop never stops (it returns none for every fuel budget) and no
planner error is recorded; and a cross-subgraph field with no key
configurations at all is dropped silently by handleFieldsRequiredByKey: no
error is recorded, nothing becomes pending, and no new fields are flagged. -/
theorem c1_unmatched_key_requirement_bug :
    (∀ fuel, Plan.processPendingKeyRequirements Plan.oracleOk fuel Plan.visitorUnmatched 7
      = none) ∧
    (Plan.handleFieldsRequiredByKey (Plan.initVisitor [Plan.dsNoKeys]) 5 "query" "User"
      "name" Plan.dsNoKeys true [9]).internalErr = none ∧
    ((Plan.handleFieldsRequiredByKey (Plan.initVisitor [Plan.dsNoKeys]) 5 "query" "User"
      "name" Plan.dsNoKeys true [9]).pendingKeyRequirements (-1)) = none ∧
    (Plan.handleFieldsRequiredByKey (Plan.initVisitor [Plan.dsNoKeys]) 5 "query" "User"
      "name" Plan.dsNoKeys true [9]).hasNewFields = false := by
  refine ⟨fun fuel => ?_, rfl, rfl, rfl⟩
  have hpend : Plan.visitorUnmatched.pendingKeyRequirements 7 = some Plan.pendingUnmatched :=
    rfl
  rw [Plan.processPendingKeyRequirements, hpend]
  exact c1_loop_never_terminates fuel _ rfl _

/-- A requester absent from the fold list leaves its dependency entry alone. -/
theorem keyDepFold_other (ds : Plan.DSHash) (conf : Plan.FederationFieldConfiguration)
    (refs : List Int) : ∀ (lst : List Int) (vv : Plan.Visitor) (r0 : Int), r0 ∉ lst →
    (lst.foldl (Plan.keyDependencyStep ds conf refs) vv).fieldDependsOn (r0, ds)
      = vv.fieldDependsOn (r0, ds)
  | [], _, _, _ => rfl
  | r :: rest, vv, r0, hmem => by
    have hne : r0 ≠ r := fun he => hmem (he ▸ List.mem_cons_self r rest)
    rw [List.foldl_cons,
      keyDepFold_other ds conf refs rest _ r0 (fun hm => hmem (List.mem_cons_of_mem _ hm))]
    unfold Plan.keyDependencyStep
    by_cases hcon : refs.contains r = true
    · rw [if_pos hcon]
    · rw [if_neg hcon]
      simp [Plan.updList, hne]

/-- A requester that is itself an injected ref keeps its dependency entry,
wherever it sits in the fold list. -/
theorem keyDepFold_refs (ds : Plan.DSHash) (conf : Plan.FederationFieldConfiguration)
    (refs : List Int) : ∀ (lst : List Int) (vv : Plan.Visitor) (r0 : Int), r0 ∈ refs →
    (lst.foldl (Plan.keyDependencyStep ds conf refs) vv).fieldDependsOn (r0, ds)
      = vv.fieldDependsOn (r0, ds)
  | [], _, _, _ => rfl
  | r :: rest, vv, r0, hr => by
    rw [List.foldl_cons, keyDepFold_refs ds conf refs rest _ r0 hr]
    unfold Plan.keyDependencyStep
    by_cases hcon : refs.contains r = true
    · rw [if_pos hcon]
    · rw [if_neg hcon]
      have hne : r0 ≠ r := by
        rintro rfl
        exact hcon (List.elem_eq_true_of_mem hr)
      simp [Plan.updList, hne]

/-- A requester in the fold list that is not an injected ref receives all the
injected refs exactly once. -/
theorem keyDepFold_mem (ds : Plan.DSHash) (conf : Plan.FederationFieldConfiguration)
    (refs : List Int) : ∀ (lst : List Int) (vv : Plan.Visitor) (r0 : Int), lst.Nodup →
    r0 ∈ lst → r0 ∉ refs →
    (lst.foldl (Plan.keyDependencyStep ds conf refs) vv).fieldDependsOn (r0, ds)
      = vv.fieldDependsOn (r0, ds) ++ refs
  | [], _, _, _, hmem, _ => absurd hmem (List.not_mem_nil _)
  | r :: rest, vv, r0, hnd, hmem, hskip => by
    rw [List.foldl_cons]
    rcases List.mem_cons.mp hmem with he | hm
    · subst he
      have hnotin : r0 ∉ rest := (List.nodup_cons.mp hnd).1
      rw [keyDepFold_other ds conf refs rest _ r0 hnotin]
      unfold Plan.keyDependencyStep
      rw [if_neg (fun hc => hskip (List.mem_of_elem_eq_true hc))]
      simp [Plan.updList]
    · have hne : r0 ≠ r := by
        rintro rfl
        exact (List.nodup_cons.mp hnd).1 hm
      rw [keyDepFold_mem ds conf refs rest _ r0 (List.nodup_cons.mp hnd).2 hm hskip]
      unfold Plan.keyDependencyStep
      by_cases hcon : refs.contains r = true
      · rw [if_pos hcon]
      · rw [if_neg hcon]
        simp [Plan.updList, hne]

/-- The dependency fold never touches fieldLandedTo. -/
theorem keyDepFold_landed (ds : Plan.DSHash) (conf : Plan.FederationFieldConfiguration)
    (refs : List Int) : ∀ (lst : List Int) (vv : Plan.Visitor),
    (lst.foldl (Plan.keyDependencyStep ds conf refs) vv).fieldLandedTo = vv.fieldLandedTo
  | [], _ => rfl
  | r :: rest, vv => by
    rw [List.foldl_cons, keyDepFold_landed ds conf refs rest]
    unfold Plan.keyDependencyStep
    by_cases hcon : refs.contains r = true
    · rw [if_pos hcon]
    · rw [if_neg hcon]

/-- The landed-to fold never touches fieldDependsOn. -/
theorem landedFold_depends (h : Plan.DSHash) : ∀ (lst : List Int) (vv : Plan.Visitor),
    (lst.foldl (Plan.landedToStep h) vv).fieldDependsOn = vv.fieldDependsOn
  | [], _ => rfl
  | r :: rest, vv => by
    rw [List.foldl_cons, landedFold_depends h rest]
    rfl

/-- The landed-to fold records exactly the refs of its list. -/
theorem landedFold_at (h : Plan.DSHash) : ∀ (lst : List Int) (vv : Plan.Visitor) (x : Int),
    (lst.foldl (Plan.landedToStep h) vv).fieldLandedTo x
      = if x ∈ lst then some h else vv.fieldLandedTo x
  | [], vv, x => by simp
  | r :: rest, vv, x => by
    rw [List.foldl_cons, landedFold_at h rest _ x]
    by_cases hx : x ∈ rest
    · simp [hx, List.mem_cons]
    · by_cases hxr : x = r
      · simp [hx, hxr, Plan.landedToStep, Plan.updFn]
      · simp [hx, hxr, Plan.landedToStep, Plan.updFn, List.mem_cons]

/-- C3 counterexample: when the sole requesting field ref is itself among the
injected refs, the code records no dependencies at all for it, while the
claim, excluding only the ref equal to the requester, predicts the other
injected ref. -/
theorem c3_requester_skipped_counterexample :
    (Plan.addKeyRequirementsToOperation Plan.oracleInject12 (Plan.initVisitor []) 4 "User"
      Plan.reqBy1 Plan.dsNoKeys Plan.confUserId).fieldDependsOn (1, 5) = [] ∧
    ([] : List Int) ≠ [2] := ⟨rfl, by decide⟩

/-- C3 as amended: when a flushed key requirement injects successfully, every
requesting field ref that is not itself among the injected refs has all the
injected refs appended to its fieldDependsOn entry; a requester that is among
the injected refs is skipped entirely and its entry is unchanged; and every
injected ref has fieldLandedTo set to the hash of the data source the key
landed to. -/
theorem c3_key_dependencies_amended (o : Plan.PlannerOracle) (v : Plan.Visitor)
    (ssRef : Int) (typeName : String) (reqs : Plan.keyRequirements)
    (landedTo : Plan.DataSource) (conf : Plan.FederationFieldConfiguration)
    (skips requiredFieldRefs : List Int)
    (hparse : o.fragmentParseOk typeName conf.selectionSet
      (Plan.injectedKeyFragment reqs landedTo typeName conf.selectionSet).hasTypename = true)
    (hadd : o.addRequiredFields
      (Plan.injectedKeyFragment reqs landedTo typeName conf.selectionSet) ssRef
      = some (skips, requiredFieldRefs))
    (hnodup : reqs.requestedByFieldRefs.Nodup) :
    (∀ r ∈ reqs.requestedByFieldRefs, r ∉ requiredFieldRefs →
      (Plan.addKeyRequirementsToOperation o v ssRef typeName reqs landedTo
        conf).fieldDependsOn (r, reqs.dsHash)
        = v.fieldDependsOn (r, reqs.dsHash) ++ requiredFieldRefs) ∧
    (∀ r ∈ reqs.requestedByFieldRefs, r ∈ requiredFieldRefs →
      (Plan.addKeyRequirementsToOperation o v ssRef typeName reqs landedTo
        conf).fieldDependsOn (r, reqs.dsHash) = v.fieldDependsOn (r, reqs.dsHash)) ∧
    (∀ ref ∈ requiredFieldRefs,
      (Plan.addKeyRequirementsToOperation o v ssRef typeName reqs landedTo
        conf).fieldLandedTo ref = some landedTo.hash) := by
  have hres : Plan.addKeyRequirementsToOperation o v ssRef typeName reqs landedTo conf
      = requiredFieldRefs.foldl (Plan.landedToStep landedTo.hash)
          (reqs.requestedByFieldRefs.foldl
            (Plan.keyDependencyStep reqs.dsHash conf requiredFieldRefs)
            { v with skipFieldsRefs := v.skipFieldsRefs ++ skips }) := by
    unfold Plan.addKeyRequirementsToOperation
    dsimp only
    rw [hparse, hadd]
    rfl
  rw [hres]
  refine ⟨?_, ?_, ?_⟩
  · intro r hr hout
    rw [landedFold_depends, keyDepFold_mem _ _ _ _ _ _ hnodup hr hout]
  · intro r hr hin
    rw [landedFold_depends, keyDepFold_refs _ _ _ _ _ _ hin]
  · intro ref href
    rw [landedFold_at]
    simp [href]

/-- Witness for c3_key_dependencies_amended at a concrete injection in which
the only requester, ref 1, is itself among the injected refs 1 and 2. -/
theorem c3_key_dependencies_amended_witness :
    (∀ r ∈ Plan.reqBy1.requestedByFieldRefs, r ∉ ([1, 2] : List Int) →
      (Plan.addKeyRequirementsToOperation Plan.oracleInject12 (Plan.initVisitor []) 4 "User"
        Plan.reqBy1 Plan.dsNoKeys Plan.confUserId).fieldDependsOn (r, Plan.reqBy1.dsHash)
        = (Plan.initVisitor []).fieldDependsOn (r, Plan.reqBy1.dsHash) ++ [1, 2]) ∧
    (∀ r ∈ Plan.reqBy1.requestedByFieldRefs, r ∈ ([1, 2] : List Int) →
      (Plan.addKeyRequirementsToOperation Plan.oracleInject12 (Plan.initVisitor []) 4 "User"
        Plan.reqBy1 Plan.dsNoKeys Plan.confUserId).fieldDependsOn (r, Plan.reqBy1.dsHash)
        = (Plan.initVisitor []).fieldDependsOn (r, Plan.reqBy1.dsHash)) ∧
    (∀ ref ∈ ([1, 2] : List Int),
      (Plan.addKeyRequirementsToOperation Plan.oracleInject12 (Plan.initVisitor []) 4 "User"
        Plan.reqBy1 Plan.dsNoKeys Plan.confUserId).fieldLandedTo ref
        = some Plan.dsNoKeys.hash) :=
  c3_key_dependencies_amended Plan.oracleInject12 (Plan.initVisitor []) 4 "User"
    Plan.reqBy1 Plan.dsNoKeys Plan.confUserId [] [1, 2] rfl rfl (by decide)

/-- Merging into key requirements keeps the data-source hashes unchanged. -/
theorem mergeKey_map_dsHash : ∀ (configs : List Plan.keyRequirements) (ds : Plan.DSHash)
    (r : Int), (Plan.mergeKeyRequirement configs ds r).map (fun c => c.dsHash)
      = configs.map (fun c => c.dsHash)
  | [], _, _ => rfl
  | c :: rest, ds, r => by
    rw [Plan.mergeKeyRequirement]
    by_cases hc : c.dsHash = ds
    · rw [if_pos hc]
      by_cases hr : c.requestedByFieldRefs.contains r = true
      · rw [if_pos hr]
      · rw [if_neg hr]
        simp
    · rw [if_neg hc]
      simp [mergeKey_map_dsHash rest ds r]

/-- Merging into field requirements keeps the composite keys unchanged. -/
theorem mergeField_map_key : ∀ (configs : List Plan.fieldRequirements) (sel : String)
    (r : Int), (Plan.mergeFieldRequirement configs sel r).map (fun c => (c.dsHash, c.selectionSet))
      = configs.map (fun c => (c.dsHash, c.selectionSet))
  | [], _, _ => rfl
  | c :: rest, sel, r => by
    rw [Plan.mergeFieldRequirement]
    by_cases hc : c.selectionSet = sel
    · rw [if_pos hc]
      by_cases hr : c.requestedByFieldRefs.contains r = true
      · rw [if_pos hr]
      · rw [if_neg hr]
        simp
    · rw [if_neg hc]
      simp [mergeField_map_key rest sel r]

/-- The empty pending key entry satisfies the dedup invariant. -/
theorem keyPendingInv_empty (hashes : List Plan.DSHash) :
    Plan.keyPendingInv ⟨[], hashes, []⟩ := by
  constructor
  · simp
  · intro h
    simp [Plan.keyPendingInv]

/-- Adding a pending key requirement preserves the dedup invariant. -/
theorem addPendingKey_inv (v : Plan.Visitor) (r : Int) (ds : Plan.DSHash)
    (cfgs : List Plan.FederationFieldConfiguration) (iob : Bool) (pp : String)
    (hashes : List Plan.DSHash) (hinv : Plan.visitorPendingInv v) :
    Plan.visitorPendingInv (Plan.addPendingKeyRequirements v r ds cfgs iob pp hashes) := by
  obtain ⟨hkey, hfld⟩ := hinv
  constructor
  · intro ss p hp
    unfold Plan.addPendingKeyRequirements at hp
    dsimp only at hp
    rw [Plan.updFn] at hp
    by_cases hss : ss = v.currentSelectionSet
    · rw [if_pos hss] at hp
      have hreq : Plan.keyPendingInv
          (match v.pendingKeyRequirements v.currentSelectionSet with
          | some rq => rq
          | none => ⟨[], hashes, []⟩) := by
        rcases hold : v.pendingKeyRequirements v.currentSelectionSet with _ | rq
        · exact keyPendingInv_empty hashes
        · exact hkey _ rq hold
      set rq := (match v.pendingKeyRequirements v.currentSelectionSet with
        | some rq => rq
        | none => (⟨[], hashes, []⟩ : Plan.pendingKeyRequirements)) with hrq
      obtain ⟨hnd, hiff⟩ := hreq
      by_cases htr : rq.existsTracker.contains ds = true
      · rw [if_neg (by rw [htr]; decide)] at hp
        cases hp
        constructor
        · rw [mergeKey_map_dsHash]
          exact hnd
        · intro h
          rw [mergeKey_map_dsHash]
          exact hiff h
      · have htr2 : rq.existsTracker.contains ds = false := by
          simpa using htr
        rw [if_pos (by rw [htr2]; decide)] at hp
        cases hp
        have hdsnot : ds ∉ rq.requirementConfigs.map (fun c => c.dsHash) := by
          intro hmem
          exact htr (List.elem_eq_true_of_mem ((hiff ds).mpr hmem))
        constructor
        · simp only [List.map_append, List.map_cons, List.map_nil]
          rw [List.nodup_append]
          refine ⟨hnd, List.nodup_singleton ds, ?_⟩
          intro a ha hb
          simp at hb
          subst hb
          exact hdsnot ha
        · intro h
          simp only [List.map_append, List.map_cons, List.map_nil, List.mem_append]
          exact or_congr (hiff h) Iff.rfl
    · rw [if_neg hss] at hp
      exact hkey ss p hp
  · intro ss p hp
    unfold Plan.addPendingKeyRequirements at hp
    dsimp only at hp
    exact hfld ss p hp

/-- The empty pending field entry satisfies the dedup invariant. -/
theorem fieldPendingInv_empty : Plan.fieldPendingInv ⟨[], []⟩ := by
  constructor
  · simp
  · intro k
    simp [Plan.fieldPendingInv]

/-- Adding a pending field requirement preserves the dedup invariant. -/
theorem addPendingField_inv (v : Plan.Visitor) (r : Int) (ds : Plan.DSHash)
    (cfg : Plan.FederationFieldConfiguration) (cp : String)
    (hinv : Plan.visitorPendingInv v) :
    Plan.visitorPendingInv (Plan.addPendingFieldRequirements v r ds cfg cp) := by
  obtain ⟨hkey, hfld⟩ := hinv
  constructor
  · intro ss p hp
    unfold Plan.addPendingFieldRequirements at hp
    dsimp only at hp
    exact hkey ss p hp
  · intro ss p hp
    unfold Plan.addPendingFieldRequirements at hp
    dsimp only at hp
    rw [Plan.updFn] at hp
    by_cases hss : ss = v.currentSelectionSet
    · rw [if_pos hss] at hp
      have hreq : Plan.fieldPendingInv
          (match v.pendingFieldRequirements v.currentSelectionSet with
          | some rq => rq
          | none => ⟨[], []⟩) := by
        rcases hold : v.pendingFieldRequirements v.currentSelectionSet with _ | rq
        · exact fieldPendingInv_empty
        · exact hfld _ rq hold
      set rq := (match v.pendingFieldRequirements v.currentSelectionSet with
        | some rq => rq
        | none => (⟨[], []⟩ : Plan.pendingFieldRequirements)) with hrq
      obtain ⟨hnd, hiff⟩ := hreq
      by_cases htr : rq.existsTracker.contains (ds, cfg.selectionSet) = true
      · rw [if_neg (by rw [htr]; decide)] at hp
        cases hp
        constructor
        · rw [mergeField_map_key]
          exact hnd
        · intro k
          rw [mergeField_map_key]
          exact hiff k
      · have htr2 : rq.existsTracker.contains (ds, cfg.selectionSet) = false := by
          simpa using htr
        rw [if_pos (by rw [htr2]; decide)] at hp
        cases hp
        have hdsnot : (ds, cfg.selectionSet) ∉
            rq.requirementConfigs.map (fun c => (c.dsHash, c.selectionSet)) := by
          intro hmem
          exact htr (List.elem_eq_true_of_mem ((hiff (ds, cfg.selectionSet)).mpr hmem))
        constructor
        · simp only [List.map_append, List.map_cons, List.map_nil]
          rw [List.nodup_append]
          refine ⟨hnd, List.nodup_singleton _, ?_⟩
          intro a ha hb
          simp at hb
          subst hb
          exact hdsnot ha
        · intro k
          simp only [List.map_append, List.map_cons, List.map_nil, List.mem_append]
          exact or_congr (hiff k) Iff.rfl
    · rw [if_neg hss] at hp
      exact hfld ss p hp

/-- Entering a selection set preserves the dedup invariant. -/
theorem enterSS_inv (v : Plan.Visitor) (ref : Int) (hinv : Plan.visitorPendingInv v) :
    Plan.visitorPendingInv { v with selectionSetRefs := v.selectionSetRefs ++ [ref] } := hinv

/-- Every pending-state operation preserves the dedup invariant. -/
theorem applyPendingOp_inv (v : Plan.Visitor) (op : Plan.PendingOp)
    (hinv : Plan.visitorPendingInv v) : Plan.visitorPendingInv (Plan.applyPendingOp v op) := by
  cases op with
  | enterSelectionSet ref => exact enterSS_inv v ref hinv
  | addKey r ds cfgs iob p hashes => exact addPendingKey_inv v r ds cfgs iob p hashes hinv
  | addField r ds cfg p => exact addPendingField_inv v r ds cfg p hinv

/-- Any sequence of pending-state operations preserves the dedup invariant. -/
theorem applyPendingOps_inv : ∀ (ops : List Plan.PendingOp) (v : Plan.Visitor),
    Plan.visitorPendingInv v → Plan.visitorPendingInv (Plan.applyPendingOps v ops)
  | [], _, hinv => hinv
  | op :: rest, v, hinv =>
    applyPendingOps_inv rest (Plan.applyPendingOp v op) (applyPendingOp_inv v op hinv)

/-- The initial visitor satisfies the dedup invariant. -/
theorem initVisitor_inv (ds : List Plan.DataSource) :
    Plan.visitorPendingInv (Plan.initVisitor ds) := by
  constructor
  · intro ss p hp
    cases hp
  · intro ss p hp
    cases hp

/-- Merging into the key requirements rewrites exactly the first entry with
the matching data-source hash. -/
theorem mergeKey_first : ∀ (pre : List Plan.keyRequirements) (c : Plan.keyRequirements)
    (post : List Plan.keyRequirements) (ds : Plan.DSHash) (r : Int),
    (∀ x ∈ pre, x.dsHash ≠ ds) → c.dsHash = ds →
    Plan.mergeKeyRequirement (pre ++ c :: post) ds r
      = pre ++ { c with requestedByFieldRefs :=
          if c.requestedByFieldRefs.contains r then c.requestedByFieldRefs
          else c.requestedByFieldRefs ++ [r] } :: post
  | [], c, post, ds, r, _, hc => by
    rw [List.nil_append, Plan.mergeKeyRequirement, if_pos hc]
    by_cases hr : c.requestedByFieldRefs.contains r = true
    · rw [if_pos hr, if_pos hr]
      rfl
    · rw [if_neg hr, if_neg hr]
      rfl
  | x :: pre, c, post, ds, r, hpre, hc => by
    rw [List.cons_append, Plan.mergeKeyRequirement,
      if_neg (hpre x (List.mem_cons_self x pre)),
      mergeKey_first pre c post ds r (fun y hy => hpre y (List.mem_cons_of_mem x hy)) hc,
      List.cons_append]

/-- Merging into the field requirements rewrites exactly the first entry with
the matching selection set, whatever its data-source hash. -/
theorem mergeField_first : ∀ (pre : List Plan.fieldRequirements) (c : Plan.fieldRequirements)
    (post : List Plan.fieldRequirements) (sel : String) (r : Int),
    (∀ x ∈ pre, x.selectionSet ≠ sel) → c.selectionSet = sel →
    Plan.mergeFieldRequirement (pre ++ c :: post) sel r
      = pre ++ { c with requestedByFieldRefs :=
          if c.requestedByFieldRefs.contains r then c.requestedByFieldRefs
          else c.requestedByFieldRefs ++ [r] } :: post
  | [], c, post, sel, r, _, hc => by
    rw [List.nil_append, Plan.mergeFieldRequirement, if_pos hc]
    by_cases hr : c.requestedByFieldRefs.contains r = true
    · rw [if_pos hr, if_pos hr]
      rfl
    · rw [if_neg hr, if_neg hr]
      rfl
  | x :: pre, c, post, sel, r, hpre, hc => by
    rw [List.cons_append, Plan.mergeFieldRequirement,
      if_neg (hpre x (List.mem_cons_self x pre)),
      mergeField_first pre c post sel r (fun y hy => hpre y (List.mem_cons_of_mem x hy)) hc,
      List.cons_append]

/-- C8 counterexample: after two field requirements sharing selection set x on
different data sources, a duplicate add for data source 2 is merged into the
FIRST entry with that selection set, which belongs to data source 1, not into
the duplicated (dsHash 2, selectionSet x) entry the claim designates. -/
theorem c8_field_dup_merge_counterexample :
    (((Plan.applyPendingOps (Plan.initVisitor []) Plan.fieldDupOps).pendingFieldRequirements
      4).map (fun p => p.requirementConfigs.map (fun c => c.requestedByFieldRefs)))
      = some [[1, 3], [2]] ∧
    (some [[1, 3], [2]] : Option (List (List Int))) ≠ some [[1], [2, 3]] :=
  ⟨rfl, by decide⟩

/-- C8 as amended: after any sequence of pending-requirement adds, no two
pending key requirements of a selection set share a dsHash and no two pending
field requirements share a (dsHash, selectionSet) pair; adding a duplicate
creates no new entry; a duplicate key requirement merges its requesting field
ref (if absent) into the entry with the same dsHash, while a duplicate field
requirement merges it into the first entry with the same selection set,
regardless of that entry's dsHash. -/
theorem c8_pending_requirements_dedup :
    (∀ (ds : List Plan.DataSource) (ops : List Plan.PendingOp),
      Plan.visitorPendingInv (Plan.applyPendingOps (Plan.initVisitor ds) ops)) ∧
    (∀ (pre : List Plan.keyRequirements) (c : Plan.keyRequirements)
        (post : List Plan.keyRequirements) (ds : Plan.DSHash) (r : Int),
      (∀ x ∈ pre, x.dsHash ≠ ds) → c.dsHash = ds →
      Plan.mergeKeyRequirement (pre ++ c :: post) ds r
        = pre ++ { c with requestedByFieldRefs :=
            if c.requestedByFieldRefs.contains r then c.requestedByFieldRefs
            else c.requestedByFieldRefs ++ [r] } :: post) ∧
    (∀ (pre : List Plan.fieldRequirements) (c : Plan.fieldRequirements)
        (post : List Plan.fieldRequirements) (sel : String) (r : Int),
      (∀ x ∈ pre, x.selectionSet ≠ sel) → c.selectionSet = sel →
      Plan.mergeFieldRequirement (pre ++ c :: post) sel r
        = pre ++ { c with requestedByFieldRefs :=
            if c.requestedByFieldRefs.contains r then c.requestedByFieldRefs
            else c.requestedByFieldRefs ++ [r] } :: post) ∧
    (∀ (v : Plan.Visitor) (r : Int) (ds : Plan.DSHash)
        (cfgs : List Plan.FederationFieldConfiguration) (iob : Bool) (pp : String)
        (hashes : List Plan.DSHash) (p : Plan.pendingKeyRequirements),
      v.pendingKeyRequirements v.currentSelectionSet = some p → ds ∈ p.existsTracker →
      (Plan.addPendingKeyRequirements v r ds cfgs iob pp hashes).pendingKeyRequirements
          v.currentSelectionSet
        = some { p with requirementConfigs :=
            Plan.mergeKeyRequirement p.requirementConfigs ds r }) ∧
    (∀ (v : Plan.Visitor) (r : Int) (ds : Plan.DSHash)
        (cfg : Plan.FederationFieldConfiguration) (cp : String)
        (p : Plan.pendingFieldRequirements),
      v.pendingFieldRequirements v.currentSelectionSet = some p →
      (ds, cfg.selectionSet) ∈ p.existsTracker →
      (Plan.addPendingFieldRequirements v r ds cfg cp).pendingFieldRequirements
          v.currentSelectionSet
        = some { p with requirementConfigs :=
            Plan.mergeFieldRequirement p.requirementConfigs cfg.selectionSet r }) := by
  refine ⟨fun ds ops => applyPendingOps_inv ops _ (initVisitor_inv ds),
    mergeKey_first, mergeField_first, ?_, ?_⟩
  · intro v r ds cfgs iob pp hashes p hp hmem
    have hc : p.existsTracker.contains ds = true := List.elem_eq_true_of_mem hmem
    unfold Plan.addPendingKeyRequirements
    dsimp only
    rw [hp]
    rw [if_neg (by rw [hc]; decide)]
    simp [Plan.updFn]
  · intro v r ds cfg cp p hp hmem
    have hc : p.existsTracker.contains (ds, cfg.selectionSet) = true :=
      List.elem_eq_true_of_mem hmem
    unfold Plan.addPendingFieldRequirements
    dsimp only
    rw [hp]
    rw [if_neg (by rw [hc]; decide)]
    simp [Plan.updFn]

/-- Witness for c8_pending_requirements_dedup: a duplicate key requirement for
data source 2 on the concrete visitor is merged, creating no new entry. -/
theorem c8_pending_requirements_dedup_witness :
    (Plan.addPendingKeyRequirements Plan.visitorWithKey2 9 2 [] false "q"
      []).pendingKeyRequirements Plan.visitorWithKey2.currentSelectionSet
      = some { pendingKey2 with requirementConfigs :=
          Plan.mergeKeyRequirement pendingKey2.requirementConfigs 2 9 } :=
  c8_pending_requirements_dedup.2.2.2.1 Plan.visitorWithKey2 9 2 [] false "q" []
    pendingKey2 rfl (by decide)

/-- The prefix loop misses every argument whose dotted key is not a prefix of
the tag. -/
theorem prefixLoop_none (tag : String) : ∀ (l : List (String × String)),
    (∀ kv ∈ l, Exec.strHasPrefix tag (Exec.dotKey tag kv.1) = false) →
    Exec.prefixLoop tag l = none
  | [], _ => rfl
  | (k, v) :: rest, h => by
    have hk := h (k, v) (List.mem_cons_self _ _)
    rw [Exec.prefixLoop]
    dsimp only
    rw [if_pos (by rw [hk]; decide)]
    exact prefixLoop_none tag rest (fun kv hkv => h kv (List.mem_cons_of_mem _ hkv))

/-- The prefix loop selects the first argument whose dotted key is a prefix of
the tag and substitutes or JSON-navigates its value. -/
theorem prefixLoop_first (tag : String) : ∀ (pre : List (String × String))
    (kv : String × String) (post : List (String × String)),
    (∀ x ∈ pre, Exec.strHasPrefix tag (Exec.dotKey tag x.1) = false) →
    Exec.strHasPrefix tag (Exec.dotKey tag kv.1) = true →
    Exec.prefixLoop tag (pre ++ kv :: post)
      = (if Exec.trimPrefixStr tag (Exec.dotKey tag kv.1) = "" then some kv.2
         else some (Exec.jsonGetBytes kv.2 (Exec.splitDots
           (Exec.trimPrefixStr (Exec.trimPrefixStr tag (Exec.dotKey tag kv.1)) "."))))
  | [], kv, post, _, hkv => by
    rcases kv with ⟨k, v⟩
    rw [List.nil_append, Exec.prefixLoop]
    dsimp only
    rw [if_neg (by rw [hkv]; decide)]
  | x :: pre, kv, post, hpre, hkv => by
    rcases x with ⟨k1, v1⟩
    rw [List.cons_append, Exec.prefixLoop]
    dsimp only
    rw [if_pos (by rw [hpre (k1, v1) (List.mem_cons_self _ _)]; decide)]
    exact prefixLoop_first tag pre kv post
      (fun y hy => hpre y (List.mem_cons_of_mem _ hy)) hkv

/-- C7 counterexample: the tag of a template value matching no sibling
argument is not preserved verbatim; its surrounding whitespace is normalised
and its single leading dot is stripped before re-emission. -/
theorem c7_unknown_tag_not_verbatim_counterexample :
    Exec.ResolveArgs Exec.ctx0
      (.cons (.static "a" "\x7b\x7b .unknown \x7d\x7d") .nil) none
      = [("a", "\x7b\x7b unknown \x7d\x7d")] ∧
    ("\x7b\x7b unknown \x7d\x7d" : String) ≠ "\x7b\x7b .unknown \x7d\x7d" :=
  ⟨by decide, by decide⟩

/-- C7 as amended: in the template callback of ResolveArgs, a trimmed one-dot
tag .key with an exact sibling match substitutes that sibling's value; with
no exact or prefix match the tag is re-emitted between fresh delimiters with
its whitespace trimmed and (for one-dot tags) its leading dot stripped; a tag
with a different dot count is resolved by the first argument whose
dot-adjusted key is a prefix of it, substituting its value on an empty
remainder and JSON-navigating the value along the dot-split remainder
otherwise; and ResolveArgs finally removes every argument whose key starts
with a dot. -/
theorem c7_resolve_args_templates :
    (∀ (resolved : List (String × String)) (tag v : String),
      (Exec.trimTag tag).data.count '.' = 1 →
      Exec.findByKey resolved (Exec.trimPrefixStr (Exec.trimTag tag) ".") = some v →
      Exec.resolveTag resolved tag = v) ∧
    (∀ (resolved pre post : List (String × String)) (kv : String × String) (tag : String),
      resolved = pre ++ kv :: post →
      ¬ (Exec.trimTag tag).data.count '.' = 1 →
      (∀ x ∈ pre, Exec.strHasPrefix (Exec.trimTag tag)
        (Exec.dotKey (Exec.trimTag tag) x.1) = false) →
      Exec.strHasPrefix (Exec.trimTag tag) (Exec.dotKey (Exec.trimTag tag) kv.1) = true →
      Exec.resolveTag resolved tag
        = (if Exec.trimPrefixStr (Exec.trimTag tag)
              (Exec.dotKey (Exec.trimTag tag) kv.1) = "" then kv.2
           else Exec.jsonGetBytes kv.2 (Exec.splitDots (Exec.trimPrefixStr
             (Exec.trimPrefixStr (Exec.trimTag tag)
               (Exec.dotKey (Exec.trimTag tag) kv.1)) ".")))) ∧
    (∀ (resolved : List (String × String)) (tag : String),
      ((Exec.trimTag tag).data.count '.' = 1 →
        Exec.findByKey resolved (Exec.trimPrefixStr (Exec.trimTag tag) ".") = none) →
      (∀ kv ∈ resolved, Exec.strHasPrefix
          (if (Exec.trimTag tag).data.count '.' = 1
           then Exec.trimPrefixStr (Exec.trimTag tag) "." else Exec.trimTag tag)
          (Exec.dotKey (if (Exec.trimTag tag).data.count '.' = 1
           then Exec.trimPrefixStr (Exec.trimTag tag) "." else Exec.trimTag tag) kv.1)
          = false) →
      Exec.resolveTag resolved tag
        = "\x7b\x7b " ++ (if (Exec.trimTag tag).data.count '.' = 1
            then Exec.trimPrefixStr (Exec.trimTag tag) "." else Exec.trimTag tag)
          ++ " \x7d\x7d") ∧
    (∀ (ctx : Exec.Context) (args : Exec.ArgumentList) (data : Exec.Jdata)
        (kv : String × String), kv ∈ Exec.ResolveArgs ctx args data →
      Exec.strHasPrefix kv.1 "." = false) := by
  refine ⟨?_, ?_, ?_, ?_⟩
  · intro resolved tag v h1 h2
    unfold Exec.resolveTag
    dsimp only
    rw [if_pos h1, h2]
  · intro resolved pre post kv tag hres h1 hpre hkv
    unfold Exec.resolveTag
    dsimp only
    rw [if_neg h1, if_neg h1, hres, prefixLoop_first (Exec.trimTag tag) pre kv post hpre hkv]
    by_cases hrem : Exec.trimPrefixStr (Exec.trimTag tag)
        (Exec.dotKey (Exec.trimTag tag) kv.1) = ""
    · rw [if_pos hrem, if_pos hrem]
    · rw [if_neg hrem, if_neg hrem]
  · intro resolved tag hexact hpre
    unfold Exec.resolveTag
    dsimp only
    by_cases h1 : (Exec.trimTag tag).data.count '.' = 1
    · rw [if_pos h1, hexact h1, if_pos h1,
        prefixLoop_none _ resolved (by simpa [h1] using hpre)]
    · rw [if_neg h1, if_neg h1,
        prefixLoop_none _ resolved (by simpa [h1] using hpre)]
  · intro ctx args data kv hmem
    unfold Exec.ResolveArgs at hmem
    rw [Exec.resolveArgsFuel] at hmem
    unfold Exec.filterInternal at hmem
    have := List.of_mem_filter hmem
    simpa using this

/-- Witness for c7_resolve_args_templates: an exact one-dot substitution and a
re-emitted unknown tag at concrete inputs. -/
theorem c7_resolve_args_templates_witness :
    Exec.resolveTag [("a", "X")] " .a " = "X" ∧
    Exec.resolveTag [("a", "X")] " .unknown "
      = "\x7b\x7b " ++ (if (Exec.trimTag " .unknown ").data.count '.' = 1
          then Exec.trimPrefixStr (Exec.trimTag " .unknown ") "."
          else Exec.trimTag " .unknown ") ++ " \x7d\x7d" :=
  ⟨c7_resolve_args_templates.1 [("a", "X")] " .a " "X" (by decide) (by decide),
   c7_resolve_args_templates.2.2.1 [("a", "X")] " .unknown "
     (fun _ => by decide) (by decide)⟩

mutual
/-- Serialising a fetch tree leaves its buffer effects and Instruction alone. -/
theorem runFetch_serialize : ∀ (f : Exec.Fetch) (path : String) (b : Exec.BufMap),
    Exec.runFetch (Exec.serializeFetch f) path b = Exec.runFetch f path b
  | .single bn c i, _, _ => rfl
  | .serial fs, path, b => by
    rw [Exec.serializeFetch, Exec.runFetch, Exec.runFetch, runFetchList_serialize fs path b]
  | .parallel fs, path, b => by
    rw [Exec.serializeFetch, Exec.runFetch, Exec.runFetch, runFetchList_serialize fs path b]
/-- Serialising a fetch group leaves its buffer effects alone. -/
theorem runFetchList_serialize : ∀ (fs : Exec.FetchList) (path : String) (b : Exec.BufMap),
    Exec.runFetchList (Exec.serializeFetchList fs) path b = Exec.runFetchList fs path b
  | .nil, _, _ => rfl
  | .cons f rest, path, b => by
    rw [Exec.serializeFetchList, Exec.runFetchList, Exec.runFetchList,
      runFetch_serialize f path b, runFetchList_serialize rest path _]
end

/-- Serialising a node preserves the prefetch test of the List case. -/
theorem shouldPrefetchOf_serialize (v : Exec.Node) :
    Exec.shouldPrefetchOf (Exec.serializeNode v) = Exec.shouldPrefetchOf v := by
  cases v with
  | object fields path fetch => cases fetch <;> rfl
  | list _ _ _ => rfl
  | value _ _ => rfl

mutual
/-- Serialising a node preserves HasResolvers. -/
theorem hasResolvers_serialize : ∀ (n : Exec.Node),
    (Exec.serializeNode n).hasResolvers = n.hasResolvers
  | .object fields p f => by
    rw [Exec.serializeNode]
    show Exec.FieldList.hasResolvers (Exec.serializeFieldList fields)
      = Exec.FieldList.hasResolvers fields
    exact hasResolversFields_serialize fields
  | .list p filt v => by
    rw [Exec.serializeNode]
    show (Exec.serializeNode v).hasResolvers = v.hasResolvers
    exact hasResolvers_serialize v
  | .value p q => rfl
/-- Serialising a field list preserves HasResolvers. -/
theorem hasResolversFields_serialize : ∀ (fl : Exec.FieldList),
    Exec.FieldList.hasResolvers (Exec.serializeFieldList fl) = Exec.FieldList.hasResolvers fl
  | .nil => rfl
  | .cons f rest => by
    rw [Exec.serializeFieldList, Exec.FieldList.hasResolvers, Exec.FieldList.hasResolvers,
      hasResolversFld_serialize f, hasResolversFields_serialize rest]
/-- Serialising a field preserves HasResolvers. -/
theorem hasResolversFld_serialize : ∀ (f : Exec.Fld),
    Exec.Fld.hasResolvers (Exec.serializeFld f) = Exec.Fld.hasResolvers f
  | .mk name skip hr value => by
    rw [Exec.serializeFld, Exec.Fld.hasResolvers, Exec.Fld.hasResolvers,
      hasResolvers_serialize value]
end

/-- Serialising a field preserves its skip decision. -/
theorem fldSkipped_serialize (ctx : Exec.Context) (f : Exec.Fld) (data : Exec.Jdata) :
    Exec.fldSkipped ctx (Exec.serializeFld f) data = Exec.fldSkipped ctx f data := by
  cases f with
  | mk name skip hr value => cases skip <;> rfl

/-- Render loops agree when their bodies agree pointwise. -/
theorem renderLoop_congr (f g : Nat → Exec.Jd → Exec.ExecState → Exec.ExecState)
    (h : ∀ i item st, f i item st = g i item st) :
    ∀ (items : List Exec.Jd) (i : Nat) (s : Exec.ExecState),
      Exec.renderLoop f items i s = Exec.renderLoop g items i s
  | [], _, _ => rfl
  | item :: rest, i, s => by
    rw [Exec.renderLoop, Exec.renderLoop, h, renderLoop_congr f g h rest]

mutual
/-- Replacing every ParallelFetch by a SerialFetch over the same fetches
leaves the entire execution state unchanged. -/
theorem resolveNode_serialize (ctx : Exec.Context) :
    ∀ (n : Exec.Node) (data : Exec.Jdata) (path : String) (pf sf : Bool) (s : Exec.ExecState),
      Exec.resolveNode ctx (Exec.serializeNode n) data path pf sf s
        = Exec.resolveNode ctx n data path pf sf s
  | .object fields opath fetch, data, path, pf, sf, s => by
    rw [Exec.serializeNode, Exec.resolveNode, Exec.resolveNode]
    rcases hn : Exec.objectNavigate data opath s with ⟨cont, data1, s1⟩
    cases cont with
    | false => rfl
    | true =>
      have hstep : Exec.fetchStep (fetch.map Exec.serializeFetch) sf path s1
          = Exec.fetchStep fetch sf path s1 := by
        cases sf <;> cases fetch <;> simp [Exec.fetchStep, runFetch_serialize]
      dsimp only
      rw [hstep, resolveFields_serialize ctx fields 0 data1 path
        ((Exec.fetchStep fetch sf path s1).write "\x7b")]
  | .list lpath filt v, data, path, pf, sf, s => by
    rw [Exec.serializeNode, Exec.resolveNode, Exec.resolveNode]
    by_cases hb : Exec.dataBytes data = ""
    · rw [if_pos hb, if_pos hb]
    · rw [if_neg hb, if_neg hb]
      dsimp only
      have hfun1 : (fun (i : Nat) (item : Exec.Jd) (st : Exec.ExecState) =>
          Exec.resolveNode ctx (Exec.serializeNode v) (some item)
            (path ++ "." ++ toString i) true true st)
          = (fun (i : Nat) (item : Exec.Jd) (st : Exec.ExecState) =>
          Exec.resolveNode ctx v (some item) (path ++ "." ++ toString i) true true st) :=
        funext fun i => funext fun item => funext fun st =>
          resolveNode_serialize ctx v (some item) (path ++ "." ++ toString i) true true st
      have hfun2 : (fun (i : Nat) (item : Exec.Jd) (st : Exec.ExecState) =>
          Exec.resolveNode ctx (Exec.serializeNode v) (some item)
            (path ++ "." ++ toString i) false false
            (st.write (if i = 0 then "[" else ",")))
          = (fun (i : Nat) (item : Exec.Jd) (st : Exec.ExecState) =>
          Exec.resolveNode ctx v (some item) (path ++ "." ++ toString i) false false
            (st.write (if i = 0 then "[" else ","))) :=
        funext fun i => funext fun item => funext fun st =>
          resolveNode_serialize ctx v (some item) (path ++ "." ++ toString i) false false
            (st.write (if i = 0 then "[" else ","))
      rw [shouldPrefetchOf_serialize, hfun1, hfun2]
  | .value vpath quote, data, path, pf, sf, s => by
    rw [Exec.serializeNode]
/-- Serialising the fetches does not change field rendering. -/
theorem resolveFld_serialize (ctx : Exec.Context) :
    ∀ (f : Exec.Fld) (data : Exec.Jdata) (path : String) (s : Exec.ExecState),
      Exec.resolveFld ctx (Exec.serializeFld f) data path s
        = Exec.resolveFld ctx f data path s
  | .mk name skip hasResolver value, data, path, s => by
    rw [Exec.serializeFld, Exec.resolveFld, Exec.resolveFld]
    have hres := hasResolvers_serialize value
    cases hasResolver with
    | false =>
      rw [if_neg (by decide : ¬ (false = true)), if_neg (by decide : ¬ (false = true)), hres]
      by_cases hc : (decide (Exec.dataBytes data = "") && !value.hasResolvers) = true
      · rw [if_pos hc, if_pos hc]
      · rw [if_neg hc, if_neg hc,
          resolveNode_serialize ctx value data (path ++ "." ++ name) false true _]
    | true =>
      rw [if_pos (rfl : true = true), if_pos (rfl : true = true)]
      rcases hbuf : s.buffers (path ++ "." ++ name) with _ | content
      · rfl
      · dsimp only
        rw [hres]
        by_cases hc : (decide (Exec.dataBytes (some content) = "") && !value.hasResolvers) = true
        · rw [if_pos hc, if_pos hc]
        · rw [if_neg hc, if_neg hc,
            resolveNode_serialize ctx value (some content) (path ++ "." ++ name) false true _]
/-- Serialising the fetches does not change field-list rendering. -/
theorem resolveFields_serialize (ctx : Exec.Context) :
    ∀ (fl : Exec.FieldList) (i : Nat) (data : Exec.Jdata) (path : String) (s : Exec.ExecState),
      Exec.resolveFields ctx (Exec.serializeFieldList fl) i data path s
        = Exec.resolveFields ctx fl i data path s
  | .nil, _, _, _, _ => rfl
  | .cons f rest, i, data, path, s => by
    rw [Exec.serializeFieldList, Exec.resolveFields, Exec.resolveFields,
      fldSkipped_serialize]
    by_cases hskip : Exec.fldSkipped ctx f data = true
    · rw [if_pos hskip, if_pos hskip]
      exact resolveFields_serialize ctx rest (i + 1) data path s
    · rw [if_neg hskip, if_neg hskip]
      dsimp only
      rw [resolveFld_serialize ctx f data path _,
        resolveFields_serialize ctx rest (i + 1) data path _]
end

/-- Reordering a fetch tree never changes the Instruction a fetch returns:
groups return CloseConnection and singles keep their own instruction. -/
theorem fetchPerm_instr {f f2 : Exec.Fetch} (h : Exec.FetchPerm f f2) :
    ∀ (path : String) (b : Exec.BufMap),
      (Exec.runFetch f2 path b).2 = (Exec.runFetch f path b).2 := by
  cases h with
  | single bn c i => intro path b; rfl
  | serial hl => intro path b; rfl
  | parallel h1 h2 => intro path b; rfl

/-- Reordering the members of a group permutes the write list. -/
theorem reorder_writes {fs fs2 : Exec.FetchList} (h : Exec.FetchListReorder fs fs2) :
    ∀ (path : String),
      (Exec.fetchListWrites fs2 path).Perm (Exec.fetchListWrites fs path) := by
  induction h with
  | nil => intro path; exact List.Perm.refl _
  | cons f h ih =>
    intro path
    exact (List.Perm.refl (Exec.fetchWrites f path)).append (ih path)
  | swap a b t =>
    intro path
    show (Exec.fetchWrites b path ++ (Exec.fetchWrites a path ++ Exec.fetchListWrites t path)).Perm
      (Exec.fetchWrites a path ++ (Exec.fetchWrites b path ++ Exec.fetchListWrites t path))
    rw [← List.append_assoc, ← List.append_assoc]
    exact List.perm_append_comm.append_right _
  | trans h1 h2 ih1 ih2 =>
    intro path
    exact (ih2 path).trans (ih1 path)

mutual
/-- The writes of a reordered fetch tree are a permutation of the original. -/
theorem fetchPerm_writes {f f2 : Exec.Fetch} :
    Exec.FetchPerm f f2 → ∀ (path : String),
      (Exec.fetchWrites f2 path).Perm (Exec.fetchWrites f path)
  | .single bn c i, _ => List.Perm.refl _
  | .serial hl, path => fetchListPerm_writes hl path
  | .parallel h1 h2, path => (reorder_writes h2 path).trans (fetchListPerm_writes h1 path)
/-- Pointwise reordering of a group permutes the write list. -/
theorem fetchListPerm_writes {fs fs2 : Exec.FetchList} :
    Exec.FetchListPerm fs fs2 → ∀ (path : String),
      (Exec.fetchListWrites fs2 path).Perm (Exec.fetchListWrites fs path)
  | .nil, _ => List.Perm.refl _
  | .cons hf ht, path => (fetchPerm_writes hf path).append (fetchListPerm_writes ht path)
end

/-- Buffer inserts at distinct keys commute. -/
theorem bufInsert_comm (b : Exec.BufMap) {k1 k2 : String} (v1 v2 : Exec.Jd)
    (h : k1 ≠ k2) :
    Exec.bufInsert (Exec.bufInsert b k1 v1) k2 v2
      = Exec.bufInsert (Exec.bufInsert b k2 v2) k1 v1 := by
  funext x
  by_cases h1 : x = k1
  · subst h1
    rw [Exec.bufInsert, Exec.bufInsert, Exec.bufInsert, Exec.bufInsert,
      if_neg h, if_pos rfl, if_pos rfl]
  · by_cases h2 : x = k2
    · subst h2
      rw [Exec.bufInsert, Exec.bufInsert, Exec.bufInsert, Exec.bufInsert,
        if_pos rfl, if_neg h1, if_pos rfl]
    · rw [Exec.bufInsert, Exec.bufInsert, Exec.bufInsert, Exec.bufInsert,
        if_neg h2, if_neg h1, if_neg h1, if_neg h2]

/-- Applying a write list with pairwise distinct buffer keys is invariant
under permuting the writes. -/
theorem applyWrites_perm {ws1 ws2 : List (String × Exec.Jd)} (h : ws1.Perm ws2) :
    (ws1.map Prod.fst).Nodup → ∀ (b : Exec.BufMap),
      Exec.applyWrites ws1 b = Exec.applyWrites ws2 b := by
  induction h with
  | nil => intro _ b; rfl
  | cons x h ih =>
    intro hnd b
    simp only [List.map_cons, List.nodup_cons] at hnd
    exact ih hnd.2 (Exec.bufInsert b x.1 x.2)
  | swap x y l =>
    intro hnd b
    simp only [List.map_cons, List.nodup_cons, List.mem_cons] at hnd
    have hne : y.1 ≠ x.1 := fun he => hnd.1 (Or.inl he)
    show Exec.applyWrites l (Exec.bufInsert (Exec.bufInsert b y.1 y.2) x.1 x.2)
      = Exec.applyWrites l (Exec.bufInsert (Exec.bufInsert b x.1 x.2) y.1 y.2)
    rw [bufInsert_comm b y.2 x.2 hne]
  | trans h1 h2 ih1 ih2 =>
    intro hnd b
    exact (ih1 hnd b).trans (ih2 (((h1.map Prod.fst).nodup_iff).mp hnd) b)

mutual
/-- Running a fetch equals applying its write list to the buffers. -/
theorem runFetch_writes :
    ∀ (f : Exec.Fetch) (path : String) (b : Exec.BufMap),
      (Exec.runFetch f path b).1 = Exec.applyWrites (Exec.fetchWrites f path) b
  | .single bn c i, _, _ => rfl
  | .serial fs, path, b => runFetchList_writes fs path b
  | .parallel fs, path, b => runFetchList_writes fs path b
/-- Running a group equals applying its write list to the buffers. -/
theorem runFetchList_writes :
    ∀ (fs : Exec.FetchList) (path : String) (b : Exec.BufMap),
      Exec.runFetchList fs path b = Exec.applyWrites (Exec.fetchListWrites fs path) b
  | .nil, _, _ => rfl
  | .cons f rest, path, b => by
    show Exec.runFetchList rest path (Exec.runFetch f path b).1
      = Exec.applyWrites (Exec.fetchWrites f path ++ Exec.fetchListWrites rest path) b
    rw [runFetchList_writes rest path _, runFetch_writes f path b]
    simp only [Exec.applyWrites]
    rw [List.foldl_append]
end

/-- C5: parallelism only affects buffer population, never the rendered JSON.
(1) The rendering walk is unchanged when every ParallelFetch of the plan tree
is replaced by a SerialFetch over the same fetches, so emission order is the
plan tree declarative order regardless of fetch parallelism.  (2) Running a
fetch tree whose parallel groups complete in any reordered order produces the
same buffers and the same Instruction as the original spawn order, provided
the buffer keys written are pairwise distinct.  (3) Hence Execute produces the
identical final state, bytes included, for the serialised plan. -/
theorem c5_parallel_serial_equivalence :
    (∀ (ctx : Exec.Context) (n : Exec.Node) (data : Exec.Jdata) (path : String)
        (pf sf : Bool) (s : Exec.ExecState),
      Exec.resolveNode ctx (Exec.serializeNode n) data path pf sf s
        = Exec.resolveNode ctx n data path pf sf s) ∧
    (∀ (f f2 : Exec.Fetch) (path : String) (b : Exec.BufMap),
      Exec.FetchPerm f f2 → ((Exec.fetchWrites f path).map Prod.fst).Nodup →
      Exec.runFetch f2 path b = Exec.runFetch f path b) ∧
    (∀ (ctx : Exec.Context) (opType : Exec.OperationType) (root : Exec.Node)
        (failAt : Option Nat) (b : Exec.BufMap),
      Exec.Execute ctx opType (Exec.serializeNode root) failAt b
        = Exec.Execute ctx opType root failAt b) := by
  refine ⟨fun ctx n data path pf sf s => resolveNode_serialize ctx n data path pf sf s,
    fun f f2 path b hperm hnd => ?_,
    fun ctx opType root failAt b =>
      resolveNode_serialize ctx root none (Exec.operationPath opType) false true _⟩
  have hp := fetchPerm_writes hperm path
  have hnd2 : ((Exec.fetchWrites f2 path).map Prod.fst).Nodup :=
    ((hp.map Prod.fst).nodup_iff).mpr hnd
  have h1 : (Exec.runFetch f2 path b).1 = (Exec.runFetch f path b).1 := by
    rw [runFetch_writes, runFetch_writes]
    exact applyWrites_perm hp hnd2 b
  have h2 : (Exec.runFetch f2 path b).2 = (Exec.runFetch f path b).2 :=
    fetchPerm_instr hperm path b
  exact Prod.ext h1 h2

/-- Witness: the two-fetch parallel group run in reversed completion order
yields the same buffers and instruction as the spawn order. -/
theorem c5_parallel_serial_equivalence_witness :
    Exec.runFetch c5par2 "query" Exec.bufEmpty
      = Exec.runFetch c5par1 "query" Exec.bufEmpty :=
  c5_parallel_serial_equivalence.2.1 c5par1 c5par2 "query" Exec.bufEmpty
    (Exec.FetchPerm.parallel
      (Exec.FetchListPerm.cons (Exec.FetchPerm.single "a" (.raw "1") .closeConnection)
        (Exec.FetchListPerm.cons (Exec.FetchPerm.single "b" (.raw "2") .closeConnection)
          Exec.FetchListPerm.nil))
      (Exec.FetchListReorder.swap _ _ .nil))
    (by decide)
